import Mathlib

/-!
Shallow embedding of the PogoCal event pipeline (src/pogoCal.py) and proofs
about its specification claims.

Strings are modelled as `List Char`.  Python-level character classes are
modelled over ASCII (the scraped site and every constant in the program are
ASCII); `str.lower` is modelled character-wise.  Python `datetime.datetime`
values (which the program only ever builds with minute precision) are modelled
by the `DateTime` structure below.
-/

namespace PogoCal

/-- ASCII model of the characters matched by the regex class `\s`
(space, tab, newline, carriage return, vertical tab, form feed),
which is also the set stripped by `str.strip()`. -/
def isSpc (c : Char) : Bool :=
  c.toNat = 32 || c.toNat = 9 || c.toNat = 10 || c.toNat = 13 ||
    c.toNat = 11 || c.toNat = 12

/-- ASCII model of the regex class `\w`: letters, digits and underscore. -/
def isWordChar (c : Char) : Bool :=
  (65 ≤ c.toNat && c.toNat ≤ 90) || (97 ≤ c.toNat && c.toNat ≤ 122) ||
    (48 ≤ c.toNat && c.toNat ≤ 57) || c.toNat = 95

/-- The regex class `\d` (ASCII digits). -/
def isDigitC (c : Char) : Bool :=
  48 ≤ c.toNat && c.toNat ≤ 57

/-- ASCII lower-casing of a single character, as a code point. -/
def lcv (c : Char) : Nat :=
  if 65 ≤ c.toNat && c.toNat ≤ 90 then c.toNat + 32 else c.toNat

/-- ASCII model of Python `str.lower` on one character. -/
def lowerC (c : Char) : Char :=
  if 65 ≤ c.toNat && c.toNat ≤ 90 then Char.ofNat (c.toNat + 32) else c

/-- Model of Python `str.lower`. -/
def lowerS (l : List Char) : List Char :=
  l.map lowerC

/-- Does `l` start with `pat`?  (Used to model substring search.) -/
def startsWithPat : List Char → List Char → Bool
  | [], _ => true
  | _ :: _, [] => false
  | a :: as, b :: bs => a = b && startsWithPat as bs

/-- Model of Python substring containment `pat in l`. -/
def containsSub (pat : List Char) : List Char → Bool
  | [] => startsWithPat pat []
  | c :: rest => startsWithPat pat (c :: rest) || containsSub pat rest

/-- Model of Python `str.find` (first index of `pat`), as an `Option`. -/
def findPat (pat : List Char) : List Char → Option Nat
  | [] => if startsWithPat pat [] then some 0 else none
  | c :: rest =>
    if startsWithPat pat (c :: rest) then some 0
    else (findPat pat rest).map (· + 1)

/-- Scanner for `replaceDrop`: while `skip` is positive the character is
part of an occurrence already being deleted; at `skip = 0` a fresh match of
`pat` starts deleting the next `pat.length` characters. -/
def replaceGo (pat : List Char) : Nat → List Char → List Char
  | _, [] => []
  | s + 1, _ :: rest => replaceGo pat s rest
  | 0, c :: rest =>
    if startsWithPat pat (c :: rest) then
      replaceGo pat (pat.length - 1) rest
    else
      c :: replaceGo pat 0 rest

/-- Model of Python `str.replace(pat, "")` for a non-empty `pat`:
delete every occurrence, scanning left to right (non-overlapping). -/
def replaceDrop (pat : List Char) (l : List Char) : List Char :=
  replaceGo pat 0 l

/-- Model of Python `str.strip()`: drop whitespace from both ends. -/
def stripWs (l : List Char) : List Char :=
  (((l.dropWhile isSpc).reverse.dropWhile isSpc).reverse)

/-- Scanner for `collapseWs`; `prevSpace` records whether the previous
character was whitespace (in which case further whitespace is absorbed
into the already-emitted single space). -/
def collapseGo (prevSpace : Bool) : List Char → List Char
  | [] => []
  | c :: rest =>
    if isSpc c then
      if prevSpace then collapseGo true rest
      else ' ' :: collapseGo true rest
    else c :: collapseGo false rest

/-- Model of `re.sub(r'\s+', ' ', s)`: every maximal whitespace run becomes
a single space. -/
def collapseWs (l : List Char) : List Char :=
  collapseGo false l

/-- Scanner for `splitWs`, accumulating the current word in reverse. -/
def splitGo (cur : List Char) : List Char → List (List Char)
  | [] => if cur.isEmpty then [] else [cur.reverse]
  | c :: rest =>
    if isSpc c then
      if cur.isEmpty then splitGo [] rest
      else cur.reverse :: splitGo [] rest
    else splitGo (c :: cur) rest

/-- Model of Python `str.split()` (split on whitespace runs, no empties). -/
def splitWs (l : List Char) : List (List Char) :=
  splitGo [] l

/-- Model of Python `' '.join(ws)`. -/
def joinSpace : List (List Char) → List Char
  | [] => []
  | [w] => w
  | w :: ws => w ++ ' ' :: joinSpace ws

/-! ### Dates and datetimes (model of `datetime.date` / `datetime.datetime`) -/

/-- A calendar date, as in `datetime.date`. -/
structure Date where
  year : Nat
  month : Nat
  day : Nat
deriving DecidableEq, Repr

/-- A timestamp as the program builds them (`datetime.datetime` with
minute precision; the program never constructs a nonzero seconds field). -/
structure DateTime where
  year : Nat
  month : Nat
  day : Nat
  hour : Nat
  minute : Nat
deriving DecidableEq, Repr

/-- `datetime.date()` of a datetime. -/
def DateTime.date (t : DateTime) : Date :=
  ⟨t.year, t.month, t.day⟩

/-- `datetime.date` comparison: CPython compares the `(year, month, day)`
triples lexicographically. -/
def Date.ltB (a b : Date) : Bool :=
  decide (a.year < b.year ∨ (a.year = b.year ∧
    (a.month < b.month ∨ (a.month = b.month ∧ a.day < b.day))))

/-- `a > b` on dates (`end_time.date() > start_time.date()` in the source). -/
def dateGtB (a b : Date) : Bool :=
  Date.ltB b a

/-- Gregorian leap-year rule, as in `calendar.isleap` / `datetime`. -/
def isLeap (y : Nat) : Bool :=
  y % 4 = 0 && (y % 100 ≠ 0 || y % 400 = 0)

/-- Days in a month, as validated by the `datetime` constructor. -/
def daysInMonth (y m : Nat) : Nat :=
  match m with
  | 1 => 31
  | 2 => if isLeap y then 29 else 28
  | 3 => 31
  | 4 => 30
  | 5 => 31
  | 6 => 30
  | 7 => 31
  | 8 => 31
  | 9 => 30
  | 10 => 31
  | 11 => 30
  | 12 => 31
  | _ => 0

/-- Days in year `y` that precede month `m` (CPython `_days_before_month`). -/
def daysBeforeMonth (y : Nat) : Nat → Nat
  | 0 => 0
  | m + 1 => daysBeforeMonth y m + daysInMonth y m

/-- Days before January 1 of year `y` (CPython `_days_before_year`):
`(y-1)*365 + (y-1)//4 - (y-1)//100 + (y-1)//400`.  The two positive division
terms are added before the negative one so the `Nat` subtraction never
truncates. -/
def daysBeforeYear (y : Nat) : Nat :=
  365 * (y - 1) + (y - 1) / 4 + (y - 1) / 400 - (y - 1) / 100

/-- Proleptic Gregorian ordinal of a date (CPython `_ymd2ord`). -/
def Date.toOrdinal (d : Date) : Nat :=
  daysBeforeYear d.year + daysBeforeMonth d.year d.month + d.day

/-- Total minutes of a datetime since the proleptic epoch; the difference of
two of these is the program's `timedelta` in minutes. -/
def DateTime.toMin (t : DateTime) : Int :=
  (Date.toOrdinal t.date) * 1440 + t.hour * 60 + t.minute

/-- Python `(end - start).seconds`: the normalized `timedelta` keeps
`0 ≤ seconds < 86400`; with floor division this is the total number of
seconds modulo 86400 (`Int.emod` agrees with Python `%` here). -/
def tdSecondsPart (st et : DateTime) : Int :=
  ((et.toMin - st.toMin) * 60) % 86400

/-- The day after `d` (`date + timedelta(days=1)` on a valid date). -/
def nextDayDate (d : Date) : Date :=
  if d.day < daysInMonth d.year d.month then ⟨d.year, d.month, d.day + 1⟩
  else if d.month < 12 then ⟨d.year, d.month + 1, 1⟩
  else ⟨d.year + 1, 1, 1⟩

/-- `datetime + timedelta(hours=1)` on a valid datetime. -/
def addOneHour (t : DateTime) : DateTime :=
  if t.hour + 1 ≤ 23 then ⟨t.year, t.month, t.day, t.hour + 1, t.minute⟩
  else
    let d := nextDayDate t.date
    ⟨d.year, d.month, d.day, 0, t.minute⟩

/-- The invariants `datetime.datetime` guarantees for every constructed
value (`MINYEAR ≤ year`, valid month/day, hour and minute in range). -/
def ValidDT (t : DateTime) : Prop :=
  1 ≤ t.year ∧ 1 ≤ t.month ∧ t.month ≤ 12 ∧ 1 ≤ t.day ∧
    t.day ≤ daysInMonth t.year t.month ∧ t.hour ≤ 23 ∧ t.minute ≤ 59

instance (t : DateTime) : Decidable (ValidDT t) := by
  unfold ValidDT; infer_instance

/-! ### `clean_date_string` (src/pogoCal.py lines 224-245)

The source first collapses whitespace (`re.sub(r'\s+', ' ', s).strip()`),
removes every occurrence of `" Local Time"`, matches the anchored regex
`(\w+), (\w+ \d+, \d+),? at (\d+:\d+ [AP]M)` with `re.match` (a *prefix*
match), and finally parses `"{date_part} {time_part}"` with
`datetime.strptime(..., "%B %d, %Y %I:%M %p")`.

In this regex every `\w+`/`\d+` is immediately followed by a character that
is outside its own class, so backtracking can never produce a different
result than "take the maximal run, then require the literal"; the optional
`,?` is likewise deterministic because the following literal starts with a
space.  `matchDatePattern` below is that deterministic reading; it returns
the two captured groups used by the source. -/

def localTimePat : List Char :=
  (" Local Time").toList

/-- The `,? at ` part of the pattern (optional comma, then literal space,
`at`, space). -/
def afterOptComma : List Char → Option (List Char)
  | ',' :: ' ' :: 'a' :: 't' :: ' ' :: r => some r
  | ' ' :: 'a' :: 't' :: ' ' :: r => some r
  | _ => none

/-- `re.match(r'(\w+), (\w+ \d+, \d+),? at (\d+:\d+ [AP]M)', s)`, returning
the second and third captured groups (the first group, the weekday, is
discarded by the source).  A prefix match: trailing input is ignored. -/
def matchDatePattern (l : List Char) : Option (List Char × List Char) :=
  if (l.takeWhile isWordChar).isEmpty then none else
  match l.dropWhile isWordChar with
  | ',' :: ' ' :: r2 =>
    let w2 := r2.takeWhile isWordChar
    if w2.isEmpty then none else
    match r2.dropWhile isWordChar with
    | ' ' :: r4 =>
      let d1 := r4.takeWhile isDigitC
      if d1.isEmpty then none else
      match r4.dropWhile isDigitC with
      | ',' :: ' ' :: r6 =>
        let d2 := r6.takeWhile isDigitC
        if d2.isEmpty then none else
        match afterOptComma (r6.dropWhile isDigitC) with
        | some r8 =>
          let d3 := r8.takeWhile isDigitC
          if d3.isEmpty then none else
          match r8.dropWhile isDigitC with
          | ':' :: r10 =>
            let d4 := r10.takeWhile isDigitC
            if d4.isEmpty then none else
            match r10.dropWhile isDigitC with
            | ' ' :: a :: 'M' :: _ =>
              if a = 'A' ∨ a = 'P' then
                some (w2 ++ ' ' :: (d1 ++ ',' :: ' ' :: d2),
                      d3 ++ ':' :: (d4 ++ ' ' :: [a, 'M']))
              else none
            | _ => none
          | _ => none
        | none => none
      | _ => none
    | _ => none
  | _ => none

/-- The full month names `%B` accepts; they are pairwise prefix-free, so the
order of the attempts cannot change the outcome of the (backtracking)
regex alternation that `strptime` compiles. -/
def monthNames : List (List Char) :=
  [("January").toList, ("February").toList, ("March").toList,
   ("April").toList, ("May").toList, ("June").toList, ("July").toList,
   ("August").toList, ("September").toList, ("October").toList,
   ("November").toList, ("December").toList]

/-- Case-insensitive prefix test (the `strptime` regex is compiled with
`re.IGNORECASE`); returns the rest of the input on success. -/
def ciPrefixDrop : List Char → List Char → Option (List Char)
  | [], l => some l
  | _ :: _, [] => none
  | c :: cs, d :: ds => if lcv c = lcv d then ciPrefixDrop cs ds else none

def findMonthFrom : Nat → List (List Char) → List Char → Option (Nat × List Char)
  | _, [], _ => none
  | i, n :: ns, l =>
    match ciPrefixDrop n l with
    | some r => some (i, r)
    | none => findMonthFrom (i + 1) ns l

/-- `%B`: the unique month name that is a case-insensitive prefix of the
input, with its 1-based number. -/
def findMonth (l : List Char) : Option (Nat × List Char) :=
  findMonthFrom 1 monthNames l

/-- `\s+` in the compiled `strptime` pattern: consume one or more
whitespace characters. -/
def consumeWs (l : List Char) : Option (List Char) :=
  if (l.takeWhile isSpc).isEmpty then none else some (l.dropWhile isSpc)

/-- Numeric value of a digit run. -/
def tokVal (t : List Char) : Nat :=
  t.foldl (fun a c => 10 * a + (c.toNat - 48)) 0

/-- `%d` compiles to `(3[01]|[12]\d|0[1-9]|[1-9])`.  On a maximal digit run
followed by a non-digit this accepts exactly: one digit with value 1-9, or
two digits with value 1-31. -/
def dayTokOk (t : List Char) : Bool :=
  (t.length = 1 || t.length = 2) && 1 ≤ tokVal t && tokVal t ≤ 31

/-- `%I` compiles to `(1[0-2]|0[1-9]|[1-9])`: one digit 1-9 or two digits
with value 1-12. -/
def hourTokOk (t : List Char) : Bool :=
  (t.length = 1 || t.length = 2) && 1 ≤ tokVal t && tokVal t ≤ 12

/-- `%M` compiles to `([0-5]\d|\d)`: any single digit, or two digits 00-59. -/
def minTokOk (t : List Char) : Bool :=
  t.length = 1 || (t.length = 2 && tokVal t ≤ 59)

/-- The AM/PM fix-up done by `_strptime` after matching `%I` and `%p`. -/
def to24Hour (h : Nat) (isPM : Bool) : Nat :=
  if isPM then (if h = 12 then 12 else h + 12)
  else (if h = 12 then 0 else h)

/-- `datetime.strptime(s, "%B %d, %Y %I:%M %p")`, as an `Option` (the source
catches the `ValueError`).  The compiled pattern is
`%B \s+ %d , \s+ (\d\d\d\d) \s+ %I : %M \s+ %p` and the whole input must be
consumed; the final `datetime` constructor re-validates the day against the
month length and the year against `MINYEAR`.  Numeric fields are read as
maximal digit runs and validated, which agrees with the regex alternations
because in every string this function is applied to each digit run is
followed by a non-digit delimiter. -/
def strptimeBdYIMp (l : List Char) : Option DateTime :=
  match findMonth l with
  | none => none
  | some (mo, r1) =>
    match consumeWs r1 with
    | none => none
    | some r2 =>
      let dd := r2.takeWhile isDigitC
      if dayTokOk dd = false then none else
      match r2.dropWhile isDigitC with
      | ',' :: r4 =>
        match consumeWs r4 with
        | none => none
        | some r5 =>
          let yy := r5.takeWhile isDigitC
          if yy.length ≠ 4 then none else
          match consumeWs (r5.dropWhile isDigitC) with
          | none => none
          | some r7 =>
            let hh := r7.takeWhile isDigitC
            if hourTokOk hh = false then none else
            match r7.dropWhile isDigitC with
            | ':' :: r9 =>
              let mm := r9.takeWhile isDigitC
              if minTokOk mm = false then none else
              match consumeWs (r9.dropWhile isDigitC) with
              | none => none
              | some r11 =>
                match r11 with
                | c1 :: c2 :: rest =>
                  if (lcv c1 = 97 ∨ lcv c1 = 112) ∧ lcv c2 = 109 ∧ rest = []
                  then
                    let y := tokVal yy
                    let d := tokVal dd
                    if 1 ≤ y ∧ 1 ≤ d ∧ d ≤ daysInMonth y mo then
                      some ⟨y, mo, d, to24Hour (tokVal hh) (lcv c1 = 112),
                            tokVal mm⟩
                    else none
                  else none
                | _ => none
            | _ => none
      | _ => none

/-- `clean_date_string` (src/pogoCal.py lines 224-245).  `if not date_str`
rejects an empty string; then whitespace is collapsed and stripped,
`" Local Time"` occurrences are removed, the anchored pattern is matched,
and the recombined groups are parsed with `strptime`. -/
def clean_date_string (s : List Char) : Option DateTime :=
  if s.isEmpty then none else
  let t1 := stripWs (collapseWs s)
  let t2 := replaceDrop localTimePat t1
  match matchDatePattern t2 with
  | none => none
  | some (g2, g3) => strptimeBdYIMp (g2 ++ ' ' :: g3)

/-! ### Canonical date-time strings (the shape named by the specification)

The following builders realize the specification's canonical shape
`"<Weekday>, <Month> <Day>, <Year> at <H:MM> <AM|PM>[ Local Time]"` so that
the claim about `clean_date_string` can be quantified over every string of
that shape.  They are specification-side constructions, not source code. -/

/-- The decimal digit `k` (for `k ≤ 9`) as a character. -/
def digitChar : Nat → Char
  | 0 => '0'
  | 1 => '1'
  | 2 => '2'
  | 3 => '3'
  | 4 => '4'
  | 5 => '5'
  | 6 => '6'
  | 7 => '7'
  | 8 => '8'
  | _ => '9'

/-- Decimal rendering of a natural number (no padding). -/
def natStr (n : Nat) : List Char :=
  if n < 10 then [digitChar n]
  else natStr (n / 10) ++ [digitChar (n % 10)]
termination_by n
decreasing_by exact Nat.div_lt_self (by omega) (by omega)

/-- Two-digit zero-padded rendering (for the minutes `MM`). -/
def pad2 (n : Nat) : List Char :=
  if n < 10 then ['0', digitChar n] else natStr n

/-- The full name of month `mo` (1-based). -/
def monthName (mo : Nat) : List Char :=
  monthNames.getD (mo - 1) []

/-- A canonical string without the optional `" Local Time"` suffix:
`"<Weekday>, <Month> <Day>, <Year> at <H:MM> <AM|PM>"`. -/
def canonicalCore (wd : List Char) (mo d y hh mm : Nat) (isPM : Bool) :
    List Char :=
  wd ++ ',' :: ' ' ::
    (monthName mo ++ ' ' ::
      (natStr d ++ ',' :: ' ' ::
        (natStr y ++ ' ' :: 'a' :: 't' :: ' ' ::
          (natStr hh ++ ':' ::
            (pad2 mm ++ ' ' :: (if isPM then 'P' else 'A') :: ['M'])))))

/-- A canonical string, optionally followed by `" Local Time"`. -/
def canonicalString (wd : List Char) (mo d y hh mm : Nat)
    (isPM lt : Bool) : List Char :=
  canonicalCore wd mo d y hh mm isPM ++ (if lt then localTimePat else [])

/-- The exact canonical shape of the claim: some weekday word, a real month
name, a valid day for that month and year, a four-digit year, a 12-hour
hour, a two-digit minute, AM or PM, optionally followed by
`" Local Time"`. -/
def CanonicalShape (s : List Char) : Prop :=
  ∃ (wd : List Char) (mo d y hh mm : Nat) (isPM lt : Bool),
    wd ≠ [] ∧ (∀ c ∈ wd, isWordChar c = true) ∧
    1 ≤ mo ∧ mo ≤ 12 ∧ 1 ≤ d ∧ d ≤ daysInMonth y mo ∧
    1000 ≤ y ∧ y ≤ 9999 ∧ 1 ≤ hh ∧ hh ≤ 12 ∧ mm ≤ 59 ∧
    s = canonicalString wd mo d y hh mm isPM lt

/-- Comma count of a string (used to separate non-canonical strings from
the canonical shape). -/
def commaCount : List Char → Nat
  | [] => 0
  | c :: rest => (if c = ',' then 1 else 0) + commaCount rest

/-! ### The event record (the `event_data` dict built by the pipeline)

Only the keys the verified claims touch are modelled.  The derived display
strings (`display_start`, `display_start_time`, ...), `event_link`,
`image_url`, `date_text` and `original_index` are presentation-only fields
never read by the parsing, enrichment, classification or matching logic and
are omitted.  A missing `is_multi_day` key is read everywhere with
`.get('is_multi_day', False)`, so the field is modelled as a plain `Bool`
whose `false` also covers the missing key. -/

structure Record where
  title : List Char
  eventType : List Char
  startTime : Option DateTime
  endTime : Option DateTime
  isMultiDay : Bool
  detailedStart : Option DateTime
  detailedEnd : Option DateTime
  bonus : Option (List Char)
  description : Option (List Char)
deriving DecidableEq, Repr

def blankRecord (title eventType : List Char) : Record :=
  ⟨title, eventType, none, none, false, none, none, none, none⟩

/-! ### The detail page (input of `get_detailed_event_info`)

The page is abstracted to the query results the source extracts from the
parsed HTML: the HTTP status, the stripped-later text node following the
first "start"/"end" label (absent when `soup.find`/`find_next` fails), the
stripped paragraph texts, and the text of the `event-description` block.
`fallbackBonus` — Modelled from the spec: the outcome of the five fallback
regular-expression bonus patterns of §4.4 applied to this page, which no
claim exercises; `none` or an empty string means "no fallback bonus". -/

structure DetailPage where
  status : Nat
  startText : Option (List Char)
  endText : Option (List Char)
  paragraphs : List (List Char)
  descriptionText : Option (List Char)
  fallbackBonus : Option (List Char)

/-- The literal `"special bonus is"` (length 16). -/
def sbPat : List Char :=
  ("special bonus is").toList

/-- The primary bonus scan (src/pogoCal.py lines 183-196): the first
paragraph whose lower-cased text contains `"special bonus is"` yields
everything after the first occurrence, stripped, with `"**"` removed and
stripped again.  `str.find` on the lower-cased text indexes the original
text; character-wise lower-casing preserves positions. -/
def primaryBonus : List (List Char) → Option (List Char)
  | [] => none
  | p :: rest =>
    let text := stripWs p
    match findPat sbPat (lowerS text) with
    | some i =>
      some (stripWs (replaceDrop (("**").toList) (stripWs (text.drop (i + 16)))))
    | none => primaryBonus rest

/-- The bonus finally assigned for a Spotlight record: the primary result if
truthy (non-empty), otherwise the fallback-pattern result if truthy,
otherwise nothing (`if bonus_info: event_data['bonus'] = bonus_info`). -/
def assignedBonus (page : DetailPage) : Option (List Char) :=
  let fb := match page.fallbackBonus with
    | some (c :: cs) => some (c :: cs)
    | _ => none
  match primaryBonus page.paragraphs with
  | some [] => fb
  | some (c :: cs) => some (c :: cs)
  | none => fb

/-- The parse of the text following the "start" label, exactly as the
source performs it (`.strip()` then `clean_date_string`). -/
def pageStartParse (page : DetailPage) : Option DateTime :=
  match page.startText with
  | some txt => clean_date_string (stripWs txt)
  | none => none

def pageEndParse (page : DetailPage) : Option DateTime :=
  match page.endText with
  | some txt => clean_date_string (stripWs txt)
  | none => none

/-- `get_detailed_event_info` (src/pogoCal.py lines 162-283) as a function
of the abstracted detail page.  On a non-200 status the record is returned
unchanged.  Otherwise: the Spotlight bonus step, then the detailed start
and end extraction (each stored only when it parses), then — only when
*both* detailed times are present — the start/end overwrite with the
multi-day flag recomputed, then the description replacement.  The display
strings recomputed in the overwrite branch are outside the model (see
`Record`). -/
def enrich (page : DetailPage) (e0 : Record) : Record :=
  if page.status ≠ 200 then e0 else
  let e1 :=
    if e0.eventType = ("Spotlight").toList then
      match assignedBonus page with
      | some b => { e0 with bonus := some b }
      | none => e0
    else e0
  let e2 := match pageStartParse page with
    | some t => { e1 with detailedStart := some t }
    | none => e1
  let e3 := match pageEndParse page with
    | some t => { e2 with detailedEnd := some t }
    | none => e2
  let e4 := match e3.detailedStart, e3.detailedEnd with
    | some s, some t =>
      { e3 with startTime := some s, endTime := some t,
                isMultiDay := dateGtB t.date s.date }
    | _, _ => e3
  match page.descriptionText with
  | some d => { e4 with description := some (stripWs d) }
  | none => e4

/-- The preliminary time assignment of the Extractor (src/pogoCal.py lines
437-449): `start_time` is the instant parsed from the listing page,
`end_time` is one hour later and `is_multi_day` is set to `False`.
(The generic `dateutil` parse producing `parsed` is the argument.) -/
def prelimAssign (parsed : DateTime) (e : Record) : Record :=
  { e with startTime := some parsed,
           endTime := some (addOneHour parsed),
           isMultiDay := false }

/-! ### Event-type categorization (src/pogoCal.py lines 375-396) -/

/-- The keyword chain of the source, in source order, against the
lower-cased title. -/
def categorize_title (title : List Char) : List Char :=
  let tl := lowerS title
  if containsSub (("raid").toList) tl || containsSub (("raids").toList) tl then
    ("Raid").toList
  else if containsSub (("community day").toList) tl then
    ("Community Day").toList
  else if containsSub (("spotlight").toList) tl then
    ("Spotlight").toList
  else if containsSub (("battle").toList) tl || containsSub (("league").toList) tl then
    ("Battle").toList
  else if containsSub (("hatch").toList) tl then
    ("Hatch Day").toList
  else if containsSub (("mega").toList) tl then
    ("Mega").toList
  else if containsSub (("power up ticket").toList) tl || containsSub (("ticket").toList) tl then
    ("Ticket").toList
  else if containsSub (("shadow").toList) tl then
    ("Shadow").toList
  else
    ("General").toList

/-- The classification rules exactly as the specification words them: an
ordered list of (keywords, category), first matching rule wins. -/
def specRules : List (List (List Char) × List Char) :=
  [([("raid").toList, ("raids").toList], ("Raid").toList),
   ([("community day").toList], ("Community Day").toList),
   ([("spotlight").toList], ("Spotlight").toList),
   ([("battle").toList, ("league").toList], ("Battle").toList),
   ([("hatch").toList], ("Hatch Day").toList),
   ([("mega").toList], ("Mega").toList),
   ([("power up ticket").toList, ("ticket").toList], ("Ticket").toList),
   ([("shadow").toList], ("Shadow").toList)]

/-- First-match-wins reading of the specification rule table. -/
def specClassify (title : List Char) : List Char :=
  let tl := lowerS title
  match specRules.find? (fun r => r.1.any (fun k => containsSub k tl)) with
  | some r => r.2
  | none => ("General").toList

/-! ### Title similarity (src/pogoCal.py lines 495-573) -/

/-- The fixed pattern list of `is_same_event_type`. -/
def eventPatterns : List (List Char) :=
  [("community day").toList, ("spotlight hour").toList, ("raid day").toList,
   ("hatch day").toList, ("battle day").toList, ("max battle").toList,
   ("go fest").toList]

/-- `is_same_event_type` (lines 495-516): some pattern occurs in both
lower-cased titles and the lower-cased titles differ. -/
def is_same_event_type (title1 title2 : List Char) : Bool :=
  let t1 := lowerS title1
  let t2 := lowerS title2
  eventPatterns.any (fun p =>
    containsSub p t1 && containsSub p t2 && decide (t1 ≠ t2))

/-- The default reference list of `extract_pokemon_name` (lines 554-566);
the loaded configuration may override it, the claims are about the
default. -/
def pokemonDefaultList : List (List Char) :=
  [("pikachu").toList, ("eevee").toList, ("charmander").toList,
   ("bulbasaur").toList, ("squirtle").toList, ("machop").toList,
   ("abra").toList, ("gastly").toList, ("magikarp").toList,
   ("dratini").toList, ("chikorita").toList, ("cyndaquil").toList,
   ("totodile").toList, ("mareep").toList, ("larvitar").toList,
   ("treecko").toList, ("torchic").toList, ("mudkip").toList,
   ("ralts").toList, ("slakoth").toList, ("bagon").toList,
   ("beldum").toList, ("turtwig").toList, ("chimchar").toList,
   ("piplup").toList, ("gible").toList, ("snivy").toList,
   ("tepig").toList, ("oshawott").toList, ("axew").toList,
   ("chespin").toList, ("fennekin").toList, ("froakie").toList,
   ("fletchling").toList, ("rowlet").toList, ("litten").toList,
   ("popplio").toList, ("grookey").toList, ("scorbunny").toList,
   ("sobble").toList, ("pikipek").toList, ("rookidee").toList,
   ("pawmi").toList, ("sandygast").toList, ("poochyena").toList,
   ("golett").toList, ("tapu fini").toList, ("tapu bulu").toList,
   ("suicune").toList, ("houndoom").toList, ("gyarados").toList,
   ("altaria").toList, ("regirock").toList, ("regigigas").toList,
   ("uxie").toList, ("mesprit").toList, ("azelf").toList,
   ("gastly").toList, ("sableye").toList, ("machamp").toList]

def findPokemonFrom : List (List Char) → List Char → Option (List Char)
  | [], _ => none
  | p :: ps, tl => if containsSub p tl then some p else findPokemonFrom ps tl

/-- `extract_pokemon_name` (lines 550-573): the first name of the reference
list occurring anywhere as a substring of the lower-cased title. -/
def extract_pokemon_name (title : List Char) : Option (List Char) :=
  findPokemonFrom pokemonDefaultList (lowerS title)

/-- The stop-word list of `is_similar_title`. -/
def commonWordsList : List (List Char) :=
  [("featured").toList, ("event").toList, ("special").toList,
   ("bonus").toList, ("update").toList, ("the").toList, ("a").toList,
   ("an").toList, ("in").toList, ("on").toList]

/-- `is_similar_title` (lines 518-548).  Both titles are lower-cased;
stop words are removed and the words re-joined and re-split; the word *sets*
(distinct words) must share at least 2 words and at least half of the
smaller set (`len >= min * 0.5`, i.e. `2 * len >= min`, exact for these
integers); otherwise equal extracted Pokémon names decide. -/
def is_similar_title (title1 title2 : List Char) : Bool :=
  let t1 := lowerS title1
  let t2 := lowerS title2
  let clean1 := joinSpace ((splitWs t1).filter
    (fun w => decide (lowerS w ∉ commonWordsList)))
  let clean2 := joinSpace ((splitWs t2).filter
    (fun w => decide (lowerS w ∉ commonWordsList)))
  let words1 := (splitWs clean1).dedup
  let words2 := (splitWs clean2).dedup
  let common := words1.filter (fun w => decide (w ∈ words2))
  let minWords := min words1.length words2.length
  if 2 ≤ common.length ∧ minWords ≤ 2 * common.length then true
  else
    match extract_pokemon_name t1, extract_pokemon_name t2 with
    | some p1, some p2 => decide (p1 = p2)
    | _, _ => false

/-! ### Existing calendar entries and the matcher
(src/pogoCal.py lines 575-706) -/

/-- An entry of the external calendar store, as the matcher reads it:
optional `id`, optional `summary`, and the normalized start date —
`None` when the entry has neither a `dateTime` nor a whole-day `date`
start (the ISO-string/`%Y-%m-%d` normalization of lines 646-657 is
abstracted to its resulting date). -/
structure Entry where
  id : Option (List Char)
  summary : Option (List Char)
  startDate : Option Date
deriving DecidableEq, Repr

/-- `get_existing_events` (lines 575-595): the store's `list` result, or
the empty list when the call raises. -/
def get_existing_events (res : Except (List Char) (List Entry)) : List Entry :=
  match res with
  | .ok items => items
  | .error _ => []

inductive LoopResult
  | exactDup
  | upd (id : Option (List Char))
  | nomatch
deriving DecidableEq, Repr

/-- The scan over existing entries (lines 641-676).  Entries without a
normalized date are skipped; at the first entry with the record's start
date, an exact title match sets "exists" and otherwise a same-type/similar
title sets "update"; either way the scan stops there. -/
def matchLoop (title : List Char) (d : Date) : List Entry → LoopResult
  | [] => .nomatch
  | ex :: rest =>
    match ex.startDate with
    | none => matchLoop title d rest
    | some dd =>
      if ex.summary = some title ∧ dd = d then .exactDup
      else if dd = d ∧ (is_same_event_type (ex.summary.getD []) title = true ∨
                        is_similar_title (ex.summary.getD []) title = true) then
        .upd ex.id
      else matchLoop title d rest

inductive MatchDecision
  | skipInvalid
  | skipDuplicate
  | updateCandidate (id : Option (List Char))
  | create
deriving DecidableEq, Repr

/-- The per-record decision of `create_calendar_events_direct`
(lines 625-706): records without both times are skipped as invalid; an
exact duplicate is skipped; an update match with a truthy (present,
non-empty) id becomes an update candidate pending external confirmation;
everything else proceeds to creation. -/
def classifyRecord (existing : List Entry) (e : Record) : MatchDecision :=
  match e.startTime, e.endTime with
  | some st, some _ =>
    match matchLoop e.title st.date existing with
    | .exactDup => .skipDuplicate
    | .upd id =>
      match id with
      | some (c :: cs) => .updateCandidate (some (c :: cs))
      | _ => .create
    | .nomatch => .create
  | _, _ => .skipInvalid

/-! ### Node discovery on the listing page (src/pogoCal.py lines 303-325)

The page is abstracted to the query results of the three discovery
strategies: for each `div` whose class contains "event"/"raids" the list of
its anchor descendants; the anchors whose href contains "/events/"; and the
elements whose class contains "item"/"event"/"raid". -/

structure ListingPage (Node : Type) where
  sectionAnchors : List (List Node)
  hrefEventAnchors : List Node
  broadClassNodes : List Node

/-- The fallback chain of the source: if any section was found, collect the
anchors of every section; if the collected list is empty, the href-based
anchors; if still empty, the broad class-based nodes. -/
def discoverEventItems {Node : Type} (p : ListingPage Node) : List Node :=
  let items1 := if p.sectionAnchors.isEmpty then [] else p.sectionAnchors.flatten
  let items2 := if items1.isEmpty then p.hrefEventAnchors else items1
  if items2.isEmpty then p.broadClassNodes else items2

/-- First non-empty result among an ordered list of strategy results
(the specification's "first strategy yielding any results wins"). -/
def firstNonEmptyList {α : Type} : List (List α) → List α
  | [] => []
  | l :: ls => if l.isEmpty then firstNonEmptyList ls else l

/-! ### All-day scheduling decision (src/pogoCal.py lines 711-769) -/

/-- The all-day decision for a record with both times present:
`is_all_day = (is_multi_day and start.hour < 2 and end.hour > 21) or
(not is_multi_day and start.hour < 10 and end.hour > 18 and
(end - start).seconds > 7 * 3600)`. -/
def isAllDayEvent (e : Record) : Bool :=
  match e.startTime, e.endTime with
  | some st, some et =>
    (e.isMultiDay && decide (st.hour < 2) && decide (21 < et.hour)) ||
    (!e.isMultiDay && decide (st.hour < 10) && decide (18 < et.hour) &&
      decide (7 * 3600 < tdSecondsPart st et))
  | _, _ => false

inductive Scheduling
  | allDay (startDate endDate : Date)
  | timed (startT endT : DateTime)
deriving DecidableEq, Repr

/-- The scheduling representation put into the calendar entry: the
whole-day form uses the start date and the end date plus one day
(exclusive end); the timed form carries both datetimes. -/
def schedulingOf (e : Record) : Option Scheduling :=
  match e.startTime, e.endTime with
  | some st, some et =>
    some (if isAllDayEvent e then
            .allDay st.date (nextDayDate et.date)
          else .timed st et)
  | _, _ => none

/-- The whole-day criterion exactly as the claim words it: (a) multi-day
with start hour < 2 and end hour > 21, or (b) single-day, *spanning at
least 7 hours* (a true signed duration of at least 420 minutes), starting
before 10:00 and ending after 18:00. -/
def claimWholeDay (e : Record) : Bool :=
  match e.startTime, e.endTime with
  | some st, some et =>
    (e.isMultiDay && decide (st.hour < 2) && decide (21 < et.hour)) ||
    (!e.isMultiDay && decide ((420 : Int) ≤ et.toMin - st.toMin) &&
      decide (st.hour < 10) && decide (18 < et.hour))
  | _, _ => false

/-! ## Theorems -/

/-- Character-list forms of the string literals of the classifier, used to
normalize proof goals. -/
theorem keywordLits :
    ("raid").toList = ['r', 'a', 'i', 'd'] ∧
    ("raids").toList = ['r', 'a', 'i', 'd', 's'] ∧
    ("community day").toList = ['c', 'o', 'm', 'm', 'u', 'n', 'i', 't', 'y', ' ', 'd', 'a', 'y'] ∧
    ("spotlight").toList = ['s', 'p', 'o', 't', 'l', 'i', 'g', 'h', 't'] ∧
    ("battle").toList = ['b', 'a', 't', 't', 'l', 'e'] ∧
    ("league").toList = ['l', 'e', 'a', 'g', 'u', 'e'] ∧
    ("hatch").toList = ['h', 'a', 't', 'c', 'h'] ∧
    ("mega").toList = ['m', 'e', 'g', 'a'] ∧
    ("power up ticket").toList = ['p', 'o', 'w', 'e', 'r', ' ', 'u', 'p', ' ', 't', 'i', 'c', 'k', 'e', 't'] ∧
    ("ticket").toList = ['t', 'i', 'c', 'k', 'e', 't'] ∧
    ("shadow").toList = ['s', 'h', 'a', 'd', 'o', 'w'] ∧
    ("Raid").toList = ['R', 'a', 'i', 'd'] ∧
    ("Community Day").toList = ['C', 'o', 'm', 'm', 'u', 'n', 'i', 't', 'y', ' ', 'D', 'a', 'y'] ∧
    ("Spotlight").toList = ['S', 'p', 'o', 't', 'l', 'i', 'g', 'h', 't'] ∧
    ("Battle").toList = ['B', 'a', 't', 't', 'l', 'e'] ∧
    ("Hatch Day").toList = ['H', 'a', 't', 'c', 'h', ' ', 'D', 'a', 'y'] ∧
    ("Mega").toList = ['M', 'e', 'g', 'a'] ∧
    ("Ticket").toList = ['T', 'i', 'c', 'k', 'e', 't'] ∧
    ("Shadow").toList = ['S', 'h', 'a', 'd', 'o', 'w'] ∧
    ("General").toList = ['G', 'e', 'n', 'e', 'r', 'a', 'l'] :=
  ⟨rfl, rfl, rfl, rfl, rfl, rfl, rfl, rfl, rfl, rfl, rfl, rfl, rfl, rfl, rfl, rfl, rfl, rfl, rfl, rfl⟩

/-- C5: the classifier assigns the category of the first matching rule in
the fixed order raid|raids, community day, spotlight, battle|league, hatch,
mega, power up ticket|ticket, shadow, tested against the lower-cased title,
General when no keyword matches; in particular a title containing both
shadow and raid, such as "Shadow Raid Hour", is classified Raid. -/
theorem c5_classifier_order :
    (∀ t : List Char, categorize_title t = specClassify t) ∧
    categorize_title (("Shadow Raid Hour").toList) = ("Raid").toList := by
  constructor
  · intro t
    simp only [categorize_title, specClassify, specRules, keywordLits,
      List.find?, List.any_cons, List.any_nil, Bool.or_false]
    split_ifs with h1 h2 h3 h4 h5 h6 h7 h8
    · simp only [Bool.or_eq_true] at h1
      rcases h1 with h | h <;> simp [h]
    · simp only [Bool.not_eq_true, Bool.or_eq_false_iff] at h1
      simp [h1.1, h1.2, h2]
    · simp only [Bool.not_eq_true, Bool.or_eq_false_iff] at h1
      rw [Bool.not_eq_true] at h2
      simp [h1.1, h1.2, h2, h3]
    · simp only [Bool.not_eq_true, Bool.or_eq_false_iff] at h1
      rw [Bool.not_eq_true] at h2 h3
      simp only [Bool.or_eq_true] at h4
      rcases h4 with h | h <;> simp [h1.1, h1.2, h2, h3, h]
    · simp only [Bool.not_eq_true, Bool.or_eq_false_iff] at h1 h4
      rw [Bool.not_eq_true] at h2 h3
      simp [h1.1, h1.2, h2, h3, h4.1, h4.2, h5]
    · simp only [Bool.not_eq_true, Bool.or_eq_false_iff] at h1 h4
      rw [Bool.not_eq_true] at h2 h3 h5
      simp [h1.1, h1.2, h2, h3, h4.1, h4.2, h5, h6]
    · simp only [Bool.not_eq_true, Bool.or_eq_false_iff] at h1 h4
      rw [Bool.not_eq_true] at h2 h3 h5 h6
      simp only [Bool.or_eq_true] at h7
      rcases h7 with h | h <;> simp [h1.1, h1.2, h2, h3, h4.1, h4.2, h5, h6, h]
    · simp only [Bool.not_eq_true, Bool.or_eq_false_iff] at h1 h4 h7
      rw [Bool.not_eq_true] at h2 h3 h5 h6
      simp [h1.1, h1.2, h2, h3, h4.1, h4.2, h5, h6, h7.1, h7.2, h8]
    · simp only [Bool.not_eq_true, Bool.or_eq_false_iff] at h1 h4 h7
      rw [Bool.not_eq_true] at h2 h3 h5 h6 h8
      simp [h1.1, h1.2, h2, h3, h4.1, h4.2, h5, h6, h7.1, h7.2, h8]
  · decide

/-- C6: the Extractor's node set equals the result of the first discovery
strategy, in the fixed order (a) anchors inside event/raids-classed
sections, (b) anchors with an /events/ href, (c) broad class-based
elements, that yields a non-empty result; later strategies contribute
nothing, the result is never a union. -/
theorem c6_discovery_first_nonempty :
    ∀ (Node : Type) (p : ListingPage Node),
      discoverEventItems p =
        firstNonEmptyList
          [p.sectionAnchors.flatten, p.hrefEventAnchors, p.broadClassNodes] := by
  intro Node p
  obtain ⟨sa, ha, bn⟩ := p
  simp only [discoverEventItems, firstNonEmptyList]
  have h0 : (if sa.isEmpty = true then ([] : List Node) else sa.flatten)
      = sa.flatten := by
    cases sa <;> simp
  rw [h0]
  by_cases h1 : sa.flatten.isEmpty = true
  · simp only [h1, if_true]
    by_cases h2 : ha.isEmpty = true
    · simp only [h2, if_true]
      cases bn <;> simp
    · simp [h2]
  · simp [h1]

/-- C9: the species check of is_similar_title is substring-based over the
fixed ordered reference list, so a species name embedded in a longer or a
different species name also matches ("abra" inside "Kadabra" and inside
"Crabrawler"); consequently the titles "Kadabra Hour" and "Crabrawler
Fest", which share no whole word and name different species, are judged
similar. -/
theorem c9_substring_species_match :
    (∀ (ps : List (List Char)) (tl : List Char),
        findPokemonFrom ps tl = ps.find? (fun p => containsSub p tl)) ∧
    extract_pokemon_name (("Kadabra Hour").toList) = some (("abra").toList) ∧
    extract_pokemon_name (("Crabrawler Fest").toList) = some (("abra").toList) ∧
    (∀ w1 ∈ splitWs (("Kadabra Hour").toList),
      ∀ w2 ∈ splitWs (("Crabrawler Fest").toList), w1 ≠ w2) ∧
    is_similar_title (("Kadabra Hour").toList) (("Crabrawler Fest").toList)
      = true := by
  refine ⟨?_, by decide, by decide, by decide, by decide⟩
  intro ps tl
  induction ps with
  | nil => rfl
  | cons p rest ih =>
    by_cases h : containsSub p tl = true
    · simp [findPokemonFrom, h, List.find?_cons_of_pos]
    · rw [Bool.not_eq_true] at h
      simp [findPokemonFrom, h, List.find?_cons_of_neg, ih]

/-- C10: when the calendar store's list call fails, get_existing_events
returns the empty list, and against zero existing entries every record
with both times present is classified as new (proceeds to insertion);
duplicate and update detection are disabled for the run. -/
theorem c10_list_failure_all_create (err : List Char) (e : Record)
    (h1 : e.startTime.isSome = true) (h2 : e.endTime.isSome = true) :
    get_existing_events (Except.error err) = [] ∧
      classifyRecord (get_existing_events (Except.error err)) e =
        MatchDecision.create := by
  refine ⟨rfl, ?_⟩
  rcases hst : e.startTime with _ | st
  · rw [hst] at h1; simp at h1
  rcases het : e.endTime with _ | et
  · rw [het] at h2; simp at h2
  simp [get_existing_events, classifyRecord, hst, het, matchLoop]

def c10rec : Record :=
  ⟨("Abra Community Day").toList, ("Community Day").toList,
   some ⟨2026, 3, 14, 14, 0⟩, some ⟨2026, 3, 14, 17, 0⟩,
   false, none, none, none, none⟩

/-- Witness for C10 at a concrete record and failure. -/
theorem c10_list_failure_all_create_witness :
    (c10rec.startTime.isSome = true ∧ c10rec.endTime.isSome = true) ∧
      (get_existing_events (Except.error (("boom").toList)) = [] ∧
        classifyRecord (get_existing_events (Except.error (("boom").toList)))
          c10rec = MatchDecision.create) :=
  ⟨⟨by decide, by decide⟩,
    c10_list_failure_all_create (("boom").toList) c10rec
      (by decide) (by decide)⟩

/-- Does the scan of `matchLoop` stop at this entry for this record title
and start date (either as an exact duplicate or as an update candidate)? -/
def entryStops (ex : Entry) (title : List Char) (d : Date) : Bool :=
  match ex.startDate with
  | none => false
  | some dd =>
    decide (ex.summary = some title ∧ dd = d) ||
    (decide (dd = d) &&
      (is_same_event_type (ex.summary.getD []) title ||
       is_similar_title (ex.summary.getD []) title))

theorem matchLoop_skips (title : List Char) (d : Date) (ex : Entry)
    (rest : List Entry) (h : entryStops ex title d = false) :
    matchLoop title d (ex :: rest) = matchLoop title d rest := by
  unfold entryStops at h
  rcases hsd : ex.startDate with _ | dd
  · simp only [matchLoop, hsd]
  · rw [hsd] at h
    simp only [Bool.or_eq_false_iff, Bool.and_eq_false_iff,
      decide_eq_false_iff_not] at h
    simp only [matchLoop, hsd]
    rw [if_neg h.1]
    rcases h.2 with h2 | h2
    · rw [if_neg]
      intro hc
      exact h2 hc.1
    · rw [if_neg]
      intro hc
      rcases hc.2 with hs | hs
      · rw [h2.1] at hs; cases hs
      · rw [h2.2] at hs; cases hs

/-- C1 (amended): within one existing entry the exact-duplicate test
precedes the likely-update test, so when every entry preceding an
exact-duplicate entry matches neither rule, the record is classified
skip(duplicate).  (The unamended order-independence is refuted by
c1_counterexample: the scan acts on the first matching entry in list
order, so an earlier likely-update entry preempts a later exact
duplicate.) -/
theorem c1_exact_duplicate_first (pre post : List Entry) (e : Record)
    (ex : Entry) (st : DateTime)
    (hst : e.startTime = some st) (het : e.endTime.isSome = true)
    (hpass : ∀ ex' ∈ pre, entryStops ex' e.title st.date = false)
    (hsum : ex.summary = some e.title) (hdate : ex.startDate = some st.date) :
    classifyRecord (pre ++ ex :: post) e = MatchDecision.skipDuplicate := by
  rcases het' : e.endTime with _ | et
  · rw [het'] at het; cases het
  have hloop : matchLoop e.title st.date (pre ++ ex :: post)
      = LoopResult.exactDup := by
    induction pre with
    | nil =>
      simp only [List.nil_append, matchLoop, hdate]
      rw [if_pos ⟨hsum, trivial⟩]
    | cons p ps ih =>
      have hp := hpass p (by simp)
      rw [List.cons_append, matchLoop_skips _ _ _ _ hp]
      exact ih (fun ex' hx => hpass ex' (by simp [hx]))
  simp only [classifyRecord, hst, het', hloop]

def c1rec : Record :=
  ⟨("Community Day: Alpha Beta").toList, ("Community Day").toList,
   some ⟨2026, 3, 14, 14, 0⟩, some ⟨2026, 3, 14, 17, 0⟩,
   false, none, none, none, none⟩

/-- An existing entry on the same date judged a likely update (shared
pattern "community day", differing titles). -/
def c1entrySimilar : Entry :=
  ⟨some (("id1").toList), some (("Community Day: Alpha").toList),
   some ⟨2026, 3, 14⟩⟩

/-- An existing entry that is an exact duplicate of the record. -/
def c1entryExact : Entry :=
  ⟨some (("id2").toList), some (("Community Day: Alpha Beta").toList),
   some ⟨2026, 3, 14⟩⟩

/-- C1 counterexample: the existing list holds an entry whose normalized
date equals the record's start date and whose title string-equals the
record's title, yet — because a likely-update entry precedes it — the
record is classified update-candidate, not skip(duplicate).  The
exact-duplicate classification does not take precedence regardless of
entry order. -/
theorem c1_counterexample :
    c1entryExact.summary = some c1rec.title ∧
    c1entryExact.startDate = some ⟨2026, 3, 14⟩ ∧
    c1rec.startTime = some ⟨2026, 3, 14, 14, 0⟩ ∧
    c1rec.endTime.isSome = true ∧
    classifyRecord [c1entrySimilar, c1entryExact] c1rec =
      MatchDecision.updateCandidate (some (("id1").toList)) := by
  refine ⟨by decide, by decide, by decide, by decide, ?_⟩
  decide

/-- Witness for C1 (amended): with the exact duplicate first in the list
the record is classified skip(duplicate). -/
theorem c1_exact_duplicate_first_witness :
    (∀ ex' ∈ ([] : List Entry),
        entryStops ex' c1rec.title (Date.mk 2026 3 14) = false) ∧
      classifyRecord ([] ++ c1entryExact :: [c1entrySimilar]) c1rec =
        MatchDecision.skipDuplicate :=
  ⟨by decide,
    c1_exact_duplicate_first [] [c1entrySimilar] c1rec c1entryExact
      ⟨2026, 3, 14, 14, 0⟩ (by decide) (by decide) (by decide)
      (by decide) (by decide)⟩

/-- C2: partial parse success on the detail page never changes the
start/end pair — if exactly one of the detailed start/end texts parses,
the record's startTime and endTime after enrichment equal their values
before — and the pair is only overwritten when both sides parse.
(For a record as the Extractor builds it, with no detailed fields yet.) -/
theorem c2_partial_parse_discarded (page : DetailPage) (e : Record)
    (h1 : e.detailedStart = none) (h2 : e.detailedEnd = none) :
    ((pageStartParse page).isSome ≠ (pageEndParse page).isSome →
      (enrich page e).startTime = e.startTime ∧
      (enrich page e).endTime = e.endTime) ∧
    ((enrich page e).startTime ≠ e.startTime ∨
      (enrich page e).endTime ≠ e.endTime →
      (pageStartParse page).isSome = true ∧
      (pageEndParse page).isSome = true) := by
  by_cases hst : page.status ≠ 200
  · constructor
    · intro _
      simp [enrich, hst]
    · intro hc
      simp [enrich, hst] at hc
  · by_cases hsp : e.eventType = ['S', 'p', 'o', 't', 'l', 'i', 'g', 'h', 't'] <;>
      rcases hab : assignedBonus page with _ | b <;>
      rcases hdesc : page.descriptionText with _ | dsc <;>
      rcases hs : pageStartParse page with _ | ps <;>
      rcases he : pageEndParse page with _ | pe <;>
      simp [enrich, hst, hsp, hab, hdesc, hs, he, h1, h2]

theorem dateGtB_self (d : Date) : dateGtB d d = false := by
  simp [dateGtB, Date.ltB]

theorem addOneHour_date_next (t : DateTime) (h : ¬ t.hour + 1 ≤ 23) :
    (addOneHour t).date = nextDayDate t.date := by
  unfold addOneHour
  rw [if_neg h]
  rfl

theorem addOneHour_date_same (t : DateTime) (h : t.hour + 1 ≤ 23) :
    (addOneHour t).date = t.date := by
  unfold addOneHour
  rw [if_pos h]
  rfl

theorem dateGtB_nextDayDate (d : Date) : dateGtB (nextDayDate d) d = true := by
  unfold nextDayDate dateGtB Date.ltB
  split_ifs with hc1 hc2 <;> simp

/-- C3 (amended): after a DetailEnricher replacement the multi-day flag is
recomputed as endTime.date() > startTime.date(); after the Extractor's
preliminary parse the flag is set to the constant false, which coincides
with endTime.date() > startTime.date() exactly when the parsed start's
hour is not 23 (the one-hour default end then stays on the same date).
(The unamended invariant at the Extractor point is refuted by
c3_counterexample: a 23:30 preliminary start produces a pair crossing
midnight with the flag still false.) -/
theorem c3_multiday_flag_amended :
    (∀ (page : DetailPage) (e : Record) (ps pe : DateTime),
      page.status = 200 → e.detailedStart = none → e.detailedEnd = none →
      pageStartParse page = some ps → pageEndParse page = some pe →
      (enrich page e).startTime = some ps ∧
      (enrich page e).endTime = some pe ∧
      (enrich page e).isMultiDay = dateGtB pe.date ps.date) ∧
    (∀ (e : Record) (parsed : DateTime), parsed.hour ≤ 23 →
      (prelimAssign parsed e).startTime = some parsed ∧
      (prelimAssign parsed e).endTime = some (addOneHour parsed) ∧
      (prelimAssign parsed e).isMultiDay = false ∧
      ((prelimAssign parsed e).isMultiDay =
          dateGtB (addOneHour parsed).date parsed.date ↔
        parsed.hour ≠ 23)) := by
  constructor
  · intro page e ps pe h200 h1 h2 hs he
    have hst : ¬ page.status ≠ 200 := by omega
    by_cases hsp : e.eventType = ['S', 'p', 'o', 't', 'l', 'i', 'g', 'h', 't'] <;>
      rcases hab : assignedBonus page with _ | b <;>
      rcases hdesc : page.descriptionText with _ | dsc <;>
      simp [enrich, hst, hsp, hab, hdesc, hs, he, h1, h2]
  · intro e parsed hh
    refine ⟨rfl, rfl, rfl, ?_⟩
    by_cases h23 : parsed.hour = 23
    · have hne : ¬ parsed.hour + 1 ≤ 23 := by omega
      rw [show (prelimAssign parsed e).isMultiDay = false from rfl,
        addOneHour_date_next parsed hne, dateGtB_nextDayDate]
      simp [h23]
    · have hle : parsed.hour + 1 ≤ 23 := by omega
      rw [show (prelimAssign parsed e).isMultiDay = false from rfl,
        addOneHour_date_same parsed hle, dateGtB_self]
      simp [h23]

def c3rec : Record :=
  prelimAssign ⟨2026, 3, 14, 23, 30⟩
    (blankRecord (("Raid Hour").toList) (("Raid").toList))

/-- C3 counterexample: the Extractor's preliminary parse of a 23:30 start
yields endTime 00:30 on the next date, so endTime.date() >
startTime.date(), while the multi-day flag has just been set to false —
the flag does not equal the date comparison at this point after a time
assignment. -/
theorem c3_counterexample :
    c3rec.startTime = some ⟨2026, 3, 14, 23, 30⟩ ∧
    c3rec.endTime = some ⟨2026, 3, 15, 0, 30⟩ ∧
    c3rec.isMultiDay = false ∧
    dateGtB (Date.mk 2026 3 15) (Date.mk 2026 3 14) = true ∧
    c3rec.isMultiDay ≠ dateGtB (Date.mk 2026 3 15) (Date.mk 2026 3 14) := by
  decide

def c2page : DetailPage :=
  ⟨200, some (("Saturday, March 14, 2026 at 2:30 PM Local Time").toList),
   none, [], none, none⟩

def c2rec : Record :=
  ⟨("Raid Hour").toList, ("Raid").toList,
   some ⟨2026, 3, 14, 10, 0⟩, some ⟨2026, 3, 14, 11, 0⟩,
   false, none, none, none, none⟩

/-- Witness for C2: a page whose start text parses but whose end label is
missing leaves the preliminary pair untouched. -/
theorem c2_partial_parse_discarded_witness :
    (c2rec.detailedStart = none ∧ c2rec.detailedEnd = none ∧
      (pageStartParse c2page).isSome ≠ (pageEndParse c2page).isSome) ∧
    (((pageStartParse c2page).isSome ≠ (pageEndParse c2page).isSome →
        (enrich c2page c2rec).startTime = c2rec.startTime ∧
        (enrich c2page c2rec).endTime = c2rec.endTime) ∧
      ((enrich c2page c2rec).startTime ≠ c2rec.startTime ∨
        (enrich c2page c2rec).endTime ≠ c2rec.endTime →
        (pageStartParse c2page).isSome = true ∧
        (pageEndParse c2page).isSome = true)) :=
  ⟨⟨by decide, by decide, by decide⟩,
    c2_partial_parse_discarded c2page c2rec (by decide) (by decide)⟩

def c3page : DetailPage :=
  ⟨200, some (("Saturday, March 14, 2026 at 2:30 PM").toList),
   some (("Sunday, March 15, 2026 at 1:00 AM").toList), [], none, none⟩

/-- Witness for C3 (amended), instantiating the enricher part on a page
with both detailed times parseable and the extractor part on a 10:00
start. -/
theorem c3_multiday_flag_amended_witness :
    (c3page.status = 200 ∧ c2rec.detailedStart = none ∧
      c2rec.detailedEnd = none ∧
      pageStartParse c3page = some ⟨2026, 3, 14, 14, 30⟩ ∧
      pageEndParse c3page = some ⟨2026, 3, 15, 1, 0⟩ ∧
      (10 : Nat) ≤ 23) ∧
    ((enrich c3page c2rec).startTime = some ⟨2026, 3, 14, 14, 30⟩ ∧
      (enrich c3page c2rec).endTime = some ⟨2026, 3, 15, 1, 0⟩ ∧
      (enrich c3page c2rec).isMultiDay =
        dateGtB (DateTime.date ⟨2026, 3, 15, 1, 0⟩)
          (DateTime.date ⟨2026, 3, 14, 14, 30⟩)) ∧
    ((prelimAssign ⟨2026, 3, 14, 10, 0⟩ c2rec).startTime =
        some ⟨2026, 3, 14, 10, 0⟩ ∧
      (prelimAssign ⟨2026, 3, 14, 10, 0⟩ c2rec).endTime =
        some (addOneHour ⟨2026, 3, 14, 10, 0⟩) ∧
      (prelimAssign ⟨2026, 3, 14, 10, 0⟩ c2rec).isMultiDay = false ∧
      ((prelimAssign ⟨2026, 3, 14, 10, 0⟩ c2rec).isMultiDay =
          dateGtB (addOneHour ⟨2026, 3, 14, 10, 0⟩).date
            (DateTime.date ⟨2026, 3, 14, 10, 0⟩) ↔
        (10 : Nat) ≠ 23)) :=
  ⟨⟨rfl, by decide, by decide, by decide, by decide, by decide⟩,
    c3_multiday_flag_amended.1 c3page c2rec ⟨2026, 3, 14, 14, 30⟩
      ⟨2026, 3, 15, 1, 0⟩ rfl (by decide) (by decide) (by decide) (by decide),
    c3_multiday_flag_amended.2 c2rec ⟨2026, 3, 14, 10, 0⟩ (by decide)⟩

/-- With a start before 10:00 and an end after 18:00 the day-truncated
`timedelta.seconds` value always exceeds 7 hours, whatever the day
difference (including a negative one). -/
theorem tdSecondsPart_of_hours (st et : DateTime)
    (hv1 : ValidDT st) (hv2 : ValidDT et)
    (h1 : st.hour < 10) (h2 : 18 < et.hour) :
    7 * 3600 < tdSecondsPart st et := by
  obtain ⟨-, -, -, -, -, hH1, hM1⟩ := hv1
  obtain ⟨-, -, -, -, -, hH2, hM2⟩ := hv2
  unfold tdSecondsPart DateTime.toMin
  have key : (((Date.toOrdinal et.date : Int) * 1440 + et.hour * 60 + et.minute)
        - ((Date.toOrdinal st.date : Int) * 1440 + st.hour * 60 + st.minute)) * 60
      = ((et.hour * 60 + et.minute : Int) - (st.hour * 60 + st.minute)) * 60
        + 86400 * ((Date.toOrdinal et.date : Int) - Date.toOrdinal st.date) := by
    ring
  rw [key, Int.add_mul_emod_self_left]
  rw [Int.emod_eq_of_lt (by omega) (by omega)]
  omega

/-- C7 (amended): the whole-day form is chosen iff (a) the record's
multi-day flag is set with start hour < 2 and end hour > 21, or (b) the
flag is clear with start hour < 10 and end hour > 18 — the source's
additional `(end - start).seconds > 7*3600` test is automatically true
under the hour bounds in (b) because `.seconds` is the day-truncated part
of the timedelta, so no true minimum-duration requirement remains (a
record whose end precedes its start can still take the whole-day form,
refuting the claim's "spans at least 7 hours", see c7_counterexample);
and whenever the whole-day form is used, the entry's end date is the
record's end date plus one day. -/
theorem c7_allday_amended (e : Record) (st et : DateTime)
    (h1 : e.startTime = some st) (h2 : e.endTime = some et)
    (hv1 : ValidDT st) (hv2 : ValidDT et) :
    (isAllDayEvent e = true ↔
      ((e.isMultiDay = true ∧ st.hour < 2 ∧ 21 < et.hour) ∨
       (e.isMultiDay = false ∧ st.hour < 10 ∧ 18 < et.hour))) ∧
    (isAllDayEvent e = true →
      schedulingOf e = some (Scheduling.allDay st.date (nextDayDate et.date))) := by
  constructor
  · simp only [isAllDayEvent, h1, h2, Bool.or_eq_true, Bool.and_eq_true,
      decide_eq_true_eq, Bool.not_eq_true']
    constructor
    · rintro (⟨⟨hm, hs2⟩, he21⟩ | ⟨⟨⟨hm, hs10⟩, he18⟩, -⟩)
      · exact Or.inl ⟨hm, hs2, he21⟩
      · exact Or.inr ⟨hm, hs10, he18⟩
    · rintro (⟨hm, hs2, he21⟩ | ⟨hm, hs10, he18⟩)
      · exact Or.inl ⟨⟨hm, hs2⟩, he21⟩
      · exact Or.inr ⟨⟨⟨hm, hs10⟩, he18⟩,
          tdSecondsPart_of_hours st et hv1 hv2 hs10 he18⟩
  · intro hall
    simp only [schedulingOf, h1, h2, hall, if_true]

def c7rec : Record :=
  ⟨("Go Fest Weekend").toList, ("General").toList,
   some ⟨2026, 3, 15, 9, 0⟩, some ⟨2026, 3, 14, 19, 0⟩,
   false, none, none, none, none⟩

/-- C7 counterexample: a record whose end (March 14, 19:00) precedes its
start (March 15, 09:00) — flag false, start hour 9, end hour 19 — is
scheduled whole-day by the source (the day-truncated `.seconds` of the
negative timedelta is 36000 > 25200), while the claim's criterion, which
requires a span of at least 7 hours, rejects it. -/
theorem c7_counterexample :
    isAllDayEvent c7rec = true ∧ claimWholeDay c7rec = false := by
  constructor
  · decide
  · decide

def c7good : Record :=
  ⟨("Go Fest Day").toList, ("General").toList,
   some ⟨2026, 3, 14, 9, 0⟩, some ⟨2026, 3, 14, 19, 0⟩,
   false, none, none, none, none⟩

/-- Witness for C7 (amended) at a single-day 09:00-19:00 record. -/
theorem c7_allday_amended_witness :
    (c7good.startTime = some ⟨2026, 3, 14, 9, 0⟩ ∧
      c7good.endTime = some ⟨2026, 3, 14, 19, 0⟩ ∧
      ValidDT ⟨2026, 3, 14, 9, 0⟩ ∧ ValidDT ⟨2026, 3, 14, 19, 0⟩) ∧
    ((isAllDayEvent c7good = true ↔
        ((c7good.isMultiDay = true ∧ (9 : Nat) < 2 ∧ 21 < (19 : Nat)) ∨
         (c7good.isMultiDay = false ∧ (9 : Nat) < 10 ∧ 18 < (19 : Nat)))) ∧
      (isAllDayEvent c7good = true →
        schedulingOf c7good = some (Scheduling.allDay
          (DateTime.date ⟨2026, 3, 14, 9, 0⟩)
          (nextDayDate (DateTime.date ⟨2026, 3, 14, 19, 0⟩))))) :=
  ⟨⟨by decide, by decide, by decide, by decide⟩,
    c7_allday_amended c7good ⟨2026, 3, 14, 9, 0⟩ ⟨2026, 3, 14, 19, 0⟩
      (by decide) (by decide) (by decide) (by decide)⟩

/-- C8 (amended): for a Spotlight record, when some paragraph contains
"special bonus is" (case-insensitively), the recorded bonus is exactly the
text following the first occurrence in the first such paragraph, stripped,
with the emphasis markup "**" removed — with no truncation at a sentence
boundary (refuting that part of the claim, see c8_counterexample) — and
provided that text is non-empty (an empty remainder falls through to the
fallback patterns). -/
theorem c8_primary_bonus_amended (page : DetailPage) (e : Record)
    (r : List Char)
    (hT : e.eventType = ("Spotlight").toList) (hS : page.status = 200)
    (hp : primaryBonus page.paragraphs = some r) (hr : r ≠ []) :
    (enrich page e).bonus = some r := by
  rcases r with _ | ⟨c, cs⟩
  · exact absurd rfl hr
  have hab : assignedBonus page = some (c :: cs) := by
    unfold assignedBonus
    rw [hp]
  have hst : ¬ page.status ≠ 200 := by omega
  rcases hs : pageStartParse page with _ | ps <;>
    rcases he : pageEndParse page with _ | pe <;>
    rcases hd : page.descriptionText with _ | dsc <;>
    rcases hds : e.detailedStart with _ | u <;>
    rcases hde : e.detailedEnd with _ | v <;>
    simp [enrich, keywordLits, hst, hT, hab, hs, he, hd, hds, hde]

def c8para : List Char :=
  ("The special bonus is 2x Candy. Trainers also get more.").toList

def c8page : DetailPage :=
  ⟨200, none, none, [c8para], none, none⟩

def c8rec : Record :=
  blankRecord (("Abra Spotlight Hour").toList) (("Spotlight").toList)

/-- C8 counterexample: the recorded bonus for a paragraph reading "The
special bonus is 2x Candy. Trainers also get more." is the whole
remainder of the paragraph — it still contains a sentence boundary
followed by further text, so it was not truncated at a sentence boundary
as the claim states. -/
theorem c8_counterexample :
    (enrich c8page c8rec).bonus =
      some (("2x Candy. Trainers also get more.").toList) ∧
    '.' ∈ (("2x Candy. Trainers also get more.").toList).dropLast := by
  constructor
  · decide
  · decide

def c8page2 : DetailPage :=
  ⟨200, none, none, [("The special bonus is **2x Candy**").toList], none, none⟩

/-- Witness for C8 (amended): emphasis markup is stripped from the
extracted bonus. -/
theorem c8_primary_bonus_amended_witness :
    (c8rec.eventType = ("Spotlight").toList ∧ c8page2.status = 200 ∧
      primaryBonus c8page2.paragraphs = some (("2x Candy").toList) ∧
      (("2x Candy").toList) ≠ []) ∧
    (enrich c8page2 c8rec).bonus = some (("2x Candy").toList) :=
  ⟨⟨by decide, by decide, by decide, by decide⟩,
    c8_primary_bonus_amended c8page2 c8rec (("2x Candy").toList)
      (by decide) (by decide) (by decide) (by decide)⟩

/-! ### Toolkit lemmas for the canonical-string claim (C4) -/

theorem wordChar_not_spc (c : Char) (h : isWordChar c = true) :
    isSpc c = false := by
  unfold isWordChar at h
  unfold isSpc
  simp only [Bool.or_eq_true, Bool.and_eq_true, decide_eq_true_eq] at h
  simp only [Bool.or_eq_false_iff, decide_eq_false_iff_not]
  omega

theorem digit_not_spc (c : Char) (h : isDigitC c = true) :
    isSpc c = false := by
  unfold isDigitC at h
  unfold isSpc
  simp only [Bool.and_eq_true, decide_eq_true_eq] at h
  simp only [Bool.or_eq_false_iff, decide_eq_false_iff_not]
  omega

theorem not_spc_ne_space (c : Char) (h : isSpc c = false) : c ≠ ' ' := by
  intro he
  subst he
  simp [isSpc] at h

theorem digit_ne_comma (c : Char) (h : isDigitC c = true) : c ≠ ',' := by
  intro he
  subst he
  simp [isDigitC] at h

theorem digit_ne_L (c : Char) (h : isDigitC c = true) : c ≠ 'L' := by
  intro he
  subst he
  simp [isDigitC] at h

theorem wordChar_ne_comma (c : Char) (h : isWordChar c = true) : c ≠ ',' := by
  intro he
  subst he
  simp [isWordChar] at h

theorem digitChar_isDigit (k : Nat) (h : k ≤ 9) :
    isDigitC (digitChar k) = true := by
  interval_cases k <;> decide

theorem digitChar_val (k : Nat) (h : k ≤ 9) :
    (digitChar k).toNat - 48 = k := by
  interval_cases k <;> decide

theorem natStr_digits (n : Nat) : ∀ c ∈ natStr n, isDigitC c = true := by
  induction n using Nat.strong_induction_on with
  | _ n ih =>
    rw [natStr]
    by_cases h : n < 10
    · simp only [if_pos h]
      intro c hc
      simp only [List.mem_singleton] at hc
      subst hc
      exact digitChar_isDigit n (by omega)
    · simp only [if_neg h]
      intro c hc
      rcases List.mem_append.mp hc with hc | hc
      · exact ih (n / 10) (Nat.div_lt_self (by omega) (by omega)) c hc
      · simp only [List.mem_singleton] at hc
        subst hc
        exact digitChar_isDigit _ (by omega)

theorem natStr_ne_nil (n : Nat) : natStr n ≠ [] := by
  rw [natStr]
  by_cases h : n < 10 <;> simp [h]

theorem tokVal_append_digit (l : List Char) (c : Char) :
    tokVal (l ++ [c]) = 10 * tokVal l + (c.toNat - 48) := by
  simp [tokVal, List.foldl_append]

theorem tokVal_natStr (n : Nat) : tokVal (natStr n) = n := by
  induction n using Nat.strong_induction_on with
  | _ n ih =>
    rw [natStr]
    by_cases h : n < 10
    · simp only [if_pos h]
      show 10 * 0 + ((digitChar n).toNat - 48) = n
      rw [digitChar_val n (by omega)]
      omega
    · simp only [if_neg h]
      rw [tokVal_append_digit,
        ih (n / 10) (Nat.div_lt_self (by omega) (by omega)),
        digitChar_val _ (by omega)]
      omega

theorem natStr_len_1 (n : Nat) (h : n < 10) : (natStr n).length = 1 := by
  rw [natStr]
  simp [h]

theorem natStr_len_2 (n : Nat) (h1 : 10 ≤ n) (h2 : n ≤ 99) :
    (natStr n).length = 2 := by
  rw [natStr]
  rw [if_neg (by omega)]
  rw [List.length_append, natStr_len_1 (n / 10) (by omega)]
  simp

theorem natStr_len_3 (n : Nat) (h1 : 100 ≤ n) (h2 : n ≤ 999) :
    (natStr n).length = 3 := by
  rw [natStr]
  rw [if_neg (by omega)]
  rw [List.length_append, natStr_len_2 (n / 10) (by omega) (by omega)]
  simp

theorem natStr_len_4 (n : Nat) (h1 : 1000 ≤ n) (h2 : n ≤ 9999) :
    (natStr n).length = 4 := by
  rw [natStr]
  rw [if_neg (by omega)]
  rw [List.length_append, natStr_len_3 (n / 10) (by omega) (by omega)]
  simp

theorem pad2_digits (mm : Nat) :
    ∀ c ∈ pad2 mm, isDigitC c = true := by
  unfold pad2
  by_cases hm : mm < 10
  · simp only [if_pos hm]
    intro c hc
    rcases List.mem_cons.mp hc with hc | hc
    · subst hc
      decide
    · simp only [List.mem_singleton] at hc
      subst hc
      exact digitChar_isDigit mm (by omega)
  · simp only [if_neg hm]
    exact natStr_digits mm

theorem pad2_ne_nil (mm : Nat) : pad2 mm ≠ [] := by
  unfold pad2
  by_cases hm : mm < 10
  · simp [hm]
  · simp only [if_neg hm]
    exact natStr_ne_nil mm

theorem pad2_len (mm : Nat) (h : mm ≤ 99) : (pad2 mm).length = 2 := by
  unfold pad2
  by_cases hm : mm < 10
  · simp [hm]
  · simp only [if_neg hm]
    exact natStr_len_2 mm (by omega) (by omega)

theorem tokVal_pad2 (mm : Nat) (h : mm ≤ 99) : tokVal (pad2 mm) = mm := by
  unfold pad2
  by_cases hm : mm < 10
  · simp only [if_pos hm]
    show 10 * (10 * 0 + ('0'.toNat - 48)) + ((digitChar mm).toNat - 48) = mm
    rw [digitChar_val mm (by omega)]
    norm_num
    rfl
  · simp only [if_neg hm]
    exact tokVal_natStr mm

theorem monthName_word (mo : Nat) (h1 : 1 ≤ mo) (h2 : mo ≤ 12) :
    ∀ c ∈ monthName mo, isWordChar c = true := by
  interval_cases mo <;> decide

theorem monthName_ne_nil (mo : Nat) (h1 : 1 ≤ mo) (h2 : mo ≤ 12) :
    monthName mo ≠ [] := by
  interval_cases mo <;> decide

theorem takeWhile_exact (p : Char → Bool) (a : List Char) (c : Char)
    (t : List Char) (ha : ∀ x ∈ a, p x = true) (hc : p c = false) :
    ((a ++ c :: t).takeWhile p) = a := by
  induction a with
  | nil => simp [List.takeWhile_cons, hc]
  | cons x a' ih =>
    rw [List.cons_append, List.takeWhile_cons, ha x (by simp)]
    rw [if_pos rfl]
    rw [ih (fun y hy => ha y (by simp [hy]))]

theorem dropWhile_exact (p : Char → Bool) (a : List Char) (c : Char)
    (t : List Char) (ha : ∀ x ∈ a, p x = true) (hc : p c = false) :
    ((a ++ c :: t).dropWhile p) = c :: t := by
  induction a with
  | nil => simp [List.dropWhile_cons, hc]
  | cons x a' ih =>
    rw [List.cons_append, List.dropWhile_cons]
    rw [ha x (by simp)]
    rw [if_pos rfl]
    exact ih (fun y hy => ha y (by simp [hy]))

theorem head_append_forall (P : Char → Prop) (a b : List Char)
    (hne : a ≠ []) (h : ∀ c ∈ a, P c) :
    ∀ c ∈ (a ++ b).head?, P c := by
  cases a with
  | nil => exact absurd rfl hne
  | cons x a' =>
    intro c hc
    simp only [List.cons_append, List.head?_cons, Option.mem_some_iff] at hc
    subst hc
    exact h x (by simp)

theorem collapseGo_cons (b : Bool) (c : Char) (l : List Char)
    (h : isSpc c = false) : collapseGo b (c :: l) = c :: collapseGo false l := by
  simp [collapseGo, h]

theorem collapseGo_true_head (l : List Char)
    (h : ∀ c ∈ l.head?, isSpc c = false) :
    collapseGo true l = collapseGo false l := by
  cases l with
  | nil => rfl
  | cons d t =>
    have hd := h d (by simp)
    rw [collapseGo_cons true d t hd, collapseGo_cons false d t hd]

theorem collapseGo_space (l : List Char)
    (h : ∀ c ∈ l.head?, isSpc c = false) :
    collapseGo false (' ' :: l) = ' ' :: collapseGo false l := by
  show (if isSpc ' ' then
      (if false then collapseGo true l else ' ' :: collapseGo true l)
    else ' ' :: collapseGo false l) = ' ' :: collapseGo false l
  rw [if_pos (by decide), if_neg (by simp), collapseGo_true_head l h]

theorem collapseGo_append (a b : List Char)
    (ha : ∀ c ∈ a, isSpc c = false) :
    collapseGo false (a ++ b) = a ++ collapseGo false b := by
  induction a with
  | nil => simp
  | cons x a' ih =>
    rw [List.cons_append, collapseGo_cons false x _ (ha x (by simp)),
      ih (fun y hy => ha y (by simp [hy])), List.cons_append]

theorem localTimePat_eq :
    localTimePat = [' ', 'L', 'o', 'c', 'a', 'l', ' ', 'T', 'i', 'm', 'e'] :=
  rfl

theorem replaceLT_cons (c : Char) (l : List Char) (h : c ≠ ' ') :
    replaceGo localTimePat 0 (c :: l) = c :: replaceGo localTimePat 0 l := by
  have hs : startsWithPat localTimePat (c :: l) = false := by
    rw [localTimePat_eq]
    show (decide (' ' = c) && startsWithPat _ l) = false
    have h0 : (' ' = c) = False := eq_false (fun he => h he.symm)
    simp [h0]
  simp [replaceGo, hs]

theorem replaceLT_space (l : List Char) (h : ∀ c ∈ l.head?, c ≠ 'L') :
    replaceGo localTimePat 0 (' ' :: l) =
      ' ' :: replaceGo localTimePat 0 l := by
  have hs : startsWithPat localTimePat (' ' :: l) = false := by
    rw [localTimePat_eq]
    cases l with
    | nil => decide
    | cons d t =>
      have hd := h d (by simp)
      show (decide (' ' = ' ') &&
        (decide ('L' = d) && startsWithPat _ t)) = false
      have h0 : ('L' = d) = False := eq_false (fun he => hd he.symm)
      simp [h0]
  simp [replaceGo, hs]

theorem replaceLT_append (a b : List Char)
    (ha : ∀ c ∈ a, isSpc c = false) :
    replaceGo localTimePat 0 (a ++ b) = a ++ replaceGo localTimePat 0 b := by
  induction a with
  | nil => simp
  | cons x a' ih =>
    rw [List.cons_append,
      replaceLT_cons x _ (not_spc_ne_space x (ha x (by simp))),
      ih (fun y hy => ha y (by simp [hy])), List.cons_append]

theorem replaceLT_self : replaceGo localTimePat 0 localTimePat = [] := by
  decide

theorem canonicalString_assoc (wd : List Char) (mo d y hh mm : Nat)
    (isPM lt : Bool) :
    canonicalString wd mo d y hh mm isPM lt =
      wd ++ ',' :: ' ' ::
        (monthName mo ++ ' ' ::
          (natStr d ++ ',' :: ' ' ::
            (natStr y ++ ' ' :: 'a' :: 't' :: ' ' ::
              (natStr hh ++ ':' ::
                (pad2 mm ++ ' ' :: (if isPM then 'P' else 'A') :: 'M' ::
                  (if lt then localTimePat else [])))))) := by
  unfold canonicalString canonicalCore
  simp [List.append_assoc]

theorem stripWs_eq_self (l : List Char)
    (h1 : ∀ c ∈ l.head?, isSpc c = false)
    (h2 : ∀ c ∈ l.getLast?, isSpc c = false) :
    stripWs l = l := by
  unfold stripWs
  have hd : l.dropWhile isSpc = l := by
    cases l with
    | nil => rfl
    | cons c t =>
      rw [List.dropWhile_cons, h1 c (by simp)]
      simp
  rw [hd]
  have hrev : l.reverse.dropWhile isSpc = l.reverse := by
    cases hr : l.reverse with
    | nil => rfl
    | cons c t =>
      have hc : c ∈ l.getLast? := by
        rw [← List.head?_reverse, hr]
        simp
      rw [List.dropWhile_cons, h2 c hc]
      simp
  rw [hrev, List.reverse_reverse]

theorem natStr_head_not_spc (n : Nat) (b : List Char) :
    ∀ c ∈ (natStr n ++ b).head?, isSpc c = false :=
  head_append_forall _ _ _ (natStr_ne_nil n)
    (fun c hc => digit_not_spc c (natStr_digits n c hc))

theorem natStr_head_ne_L (n : Nat) (b : List Char) :
    ∀ c ∈ (natStr n ++ b).head?, c ≠ 'L' :=
  head_append_forall _ _ _ (natStr_ne_nil n)
    (fun c hc => digit_ne_L c (natStr_digits n c hc))

theorem collapse_canonical (wd : List Char) (mo d y hh mm : Nat)
    (isPM lt : Bool) (hmo1 : 1 ≤ mo) (hmo2 : mo ≤ 12)
    (hw : ∀ c ∈ wd, isWordChar c = true) :
    collapseGo false (canonicalString wd mo d y hh mm isPM lt) =
      canonicalString wd mo d y hh mm isPM lt := by
  rw [canonicalString_assoc]
  rw [collapseGo_append _ _ (fun c hc => wordChar_not_spc c (hw c hc))]
  congr 1
  rw [collapseGo_cons false ',' _ (by decide)]
  congr 1
  rw [collapseGo_space _ (head_append_forall _ _ _
    (monthName_ne_nil mo hmo1 hmo2)
    (fun c hc => wordChar_not_spc c (monthName_word mo hmo1 hmo2 c hc)))]
  congr 1
  rw [collapseGo_append _ _
    (fun c hc => wordChar_not_spc c (monthName_word mo hmo1 hmo2 c hc))]
  congr 1
  rw [collapseGo_space _ (natStr_head_not_spc d _)]
  congr 1
  rw [collapseGo_append _ _
    (fun c hc => digit_not_spc c (natStr_digits d c hc))]
  congr 1
  rw [collapseGo_cons false ',' _ (by decide)]
  congr 1
  rw [collapseGo_space _ (natStr_head_not_spc y _)]
  congr 1
  rw [collapseGo_append _ _
    (fun c hc => digit_not_spc c (natStr_digits y c hc))]
  congr 1
  rw [collapseGo_space _ (by intro c hc; simp at hc; subst hc; decide)]
  congr 1
  rw [collapseGo_cons false 'a' _ (by decide)]
  congr 1
  rw [collapseGo_cons false 't' _ (by decide)]
  congr 1
  rw [collapseGo_space _ (natStr_head_not_spc hh _)]
  congr 1
  rw [collapseGo_append _ _
    (fun c hc => digit_not_spc c (natStr_digits hh c hc))]
  congr 1
  rw [collapseGo_cons false ':' _ (by decide)]
  congr 1
  rw [collapseGo_append _ _ (fun c hc => digit_not_spc c (pad2_digits mm c hc))]
  congr 1
  rw [collapseGo_space _ (by
    intro c hc
    simp at hc
    subst hc
    cases isPM <;> decide)]
  congr 1
  rw [collapseGo_cons false _ _ (by cases isPM <;> decide)]
  congr 1
  rw [collapseGo_cons false 'M' _ (by decide)]
  congr 1
  cases lt <;> decide

theorem replace_canonicalCore (wd : List Char) (mo d y hh mm : Nat)
    (isPM lt : Bool) (hmo1 : 1 ≤ mo) (hmo2 : mo ≤ 12)
    (hw : ∀ c ∈ wd, isWordChar c = true) :
    replaceGo localTimePat 0 (canonicalString wd mo d y hh mm isPM lt) =
      canonicalString wd mo d y hh mm isPM false := by
  rw [canonicalString_assoc, canonicalString_assoc]
  rw [replaceLT_append _ _ (fun c hc => wordChar_not_spc c (hw c hc))]
  congr 1
  rw [replaceLT_cons ',' _ (by decide)]
  congr 1
  rw [replaceLT_space _ (by
    interval_cases mo <;>
      (intro c hc; simp [monthName, monthNames] at hc; subst hc; decide))]
  congr 1
  rw [replaceLT_append _ _
    (fun c hc => wordChar_not_spc c (monthName_word mo hmo1 hmo2 c hc))]
  congr 1
  rw [replaceLT_space _ (natStr_head_ne_L d _)]
  congr 1
  rw [replaceLT_append _ _
    (fun c hc => digit_not_spc c (natStr_digits d c hc))]
  congr 1
  rw [replaceLT_cons ',' _ (by decide)]
  congr 1
  rw [replaceLT_space _ (natStr_head_ne_L y _)]
  congr 1
  rw [replaceLT_append _ _
    (fun c hc => digit_not_spc c (natStr_digits y c hc))]
  congr 1
  rw [replaceLT_space _ (by intro c hc; simp at hc; subst hc; decide)]
  congr 1
  rw [replaceLT_cons 'a' _ (by decide)]
  congr 1
  rw [replaceLT_cons 't' _ (by decide)]
  congr 1
  rw [replaceLT_space _ (natStr_head_ne_L hh _)]
  congr 1
  rw [replaceLT_append _ _
    (fun c hc => digit_not_spc c (natStr_digits hh c hc))]
  congr 1
  rw [replaceLT_cons ':' _ (by decide)]
  congr 1
  rw [replaceLT_append _ _ (fun c hc => digit_not_spc c (pad2_digits mm c hc))]
  congr 1
  rw [replaceLT_space _ (by
    intro c hc
    simp at hc
    subst hc
    cases isPM <;> decide)]
  congr 1
  rw [replaceLT_cons _ _ (by cases isPM <;> decide)]
  congr 1
  rw [replaceLT_cons 'M' _ (by decide)]
  congr 1
  cases lt <;> decide

theorem getLast?_cons_append (c : Char) (a : List Char) (x : Char)
    (b : List Char) :
    (c :: (a ++ x :: b)).getLast? = (x :: b).getLast? := by
  rw [← List.cons_append, List.getLast?_append_cons]

theorem getLast_canonical (wd : List Char) (mo d y hh mm : Nat)
    (isPM lt : Bool) :
    ∀ c ∈ (canonicalString wd mo d y hh mm isPM lt).getLast?,
      isSpc c = false := by
  rw [canonicalString_assoc]
  simp only [List.getLast?_append_cons, List.getLast?_cons_cons,
    getLast?_cons_append]
  cases lt
  · intro c hc
    simp at hc
    subst hc
    decide
  · intro c hc
    simp [localTimePat_eq] at hc
    subst hc
    decide

theorem isEmpty_false_of_ne_nil {l : List Char} (h : l ≠ []) :
    l.isEmpty = false := by
  cases l with
  | nil => exact absurd rfl h
  | cons c t => rfl

theorem matchPattern_canonical (wd : List Char) (mo d y hh mm : Nat)
    (isPM : Bool) (hwne : wd ≠ []) (hw : ∀ c ∈ wd, isWordChar c = true)
    (hmo1 : 1 ≤ mo) (hmo2 : mo ≤ 12) :
    matchDatePattern (canonicalString wd mo d y hh mm isPM false) =
      some (monthName mo ++ ' ' :: (natStr d ++ ',' :: ' ' :: natStr y),
            natStr hh ++ ':' ::
              (pad2 mm ++ ' ' :: [(if isPM then 'P' else 'A'), 'M'])) := by
  rw [canonicalString_assoc]
  unfold matchDatePattern
  rw [takeWhile_exact isWordChar wd ',' _ hw (by decide),
    dropWhile_exact isWordChar wd ',' _ hw (by decide)]
  rw [if_neg (by rw [isEmpty_false_of_ne_nil hwne]; simp)]
  simp only []
  rw [takeWhile_exact isWordChar (monthName mo) ' ' _
      (monthName_word mo hmo1 hmo2) (by decide),
    dropWhile_exact isWordChar (monthName mo) ' ' _
      (monthName_word mo hmo1 hmo2) (by decide)]
  rw [if_neg (by
    rw [isEmpty_false_of_ne_nil (monthName_ne_nil mo hmo1 hmo2)]; simp)]
  simp only []
  rw [takeWhile_exact isDigitC (natStr d) ',' _ (natStr_digits d) (by decide),
    dropWhile_exact isDigitC (natStr d) ',' _ (natStr_digits d) (by decide)]
  rw [if_neg (by rw [isEmpty_false_of_ne_nil (natStr_ne_nil d)]; simp)]
  simp only []
  rw [takeWhile_exact isDigitC (natStr y) ' ' _ (natStr_digits y) (by decide),
    dropWhile_exact isDigitC (natStr y) ' ' _ (natStr_digits y) (by decide)]
  rw [if_neg (by rw [isEmpty_false_of_ne_nil (natStr_ne_nil y)]; simp)]
  simp only [afterOptComma]
  rw [takeWhile_exact isDigitC (natStr hh) ':' _ (natStr_digits hh) (by decide),
    dropWhile_exact isDigitC (natStr hh) ':' _ (natStr_digits hh) (by decide)]
  rw [if_neg (by rw [isEmpty_false_of_ne_nil (natStr_ne_nil hh)]; simp)]
  simp only []
  rw [takeWhile_exact isDigitC (pad2 mm) ' ' _ (pad2_digits mm) (by decide),
    dropWhile_exact isDigitC (pad2 mm) ' ' _ (pad2_digits mm) (by decide)]
  rw [if_neg (by rw [isEmpty_false_of_ne_nil (pad2_ne_nil mm)]; simp)]
  simp only []
  rw [if_pos (by cases isPM <;> simp)]

theorem findMonth_canonical (mo : Nat) (h1 : 1 ≤ mo) (h2 : mo ≤ 12)
    (rest : List Char) :
    findMonth (monthName mo ++ rest) = some (mo, rest) := by
  interval_cases mo <;> rfl

theorem dropWhile_id_of_head (l : List Char)
    (h : ∀ c ∈ l.head?, isSpc c = false) : l.dropWhile isSpc = l := by
  cases l with
  | nil => rfl
  | cons c t =>
    rw [List.dropWhile_cons, h c (by simp)]
    simp

theorem consumeWs_space (l : List Char)
    (h : ∀ c ∈ l.head?, isSpc c = false) :
    consumeWs (' ' :: l) = some l := by
  unfold consumeWs
  rw [List.takeWhile_cons, List.dropWhile_cons]
  simp only [show isSpc ' ' = true from by decide, if_true]
  rw [if_neg (by simp)]
  rw [dropWhile_id_of_head l h]

theorem daysInMonth_le (y m : Nat) : daysInMonth y m ≤ 31 := by
  unfold daysInMonth
  split <;> first | omega | (split <;> omega)

theorem dayTokOk_natStr (d : Nat) (h1 : 1 ≤ d) (h2 : d ≤ 31) :
    dayTokOk (natStr d) = true := by
  unfold dayTokOk
  rw [tokVal_natStr]
  by_cases hd : d < 10
  · rw [natStr_len_1 d hd]
    simp
    omega
  · rw [natStr_len_2 d (by omega) (by omega)]
    simp
    omega

theorem hourTokOk_natStr (hh : Nat) (h1 : 1 ≤ hh) (h2 : hh ≤ 12) :
    hourTokOk (natStr hh) = true := by
  unfold hourTokOk
  rw [tokVal_natStr]
  by_cases hd : hh < 10
  · rw [natStr_len_1 hh hd]
    simp
    omega
  · rw [natStr_len_2 hh (by omega) (by omega)]
    simp
    omega

theorem minTokOk_pad2 (mm : Nat) (h : mm ≤ 59) :
    minTokOk (pad2 mm) = true := by
  unfold minTokOk
  rw [tokVal_pad2 mm (by omega), pad2_len mm (by omega)]
  simp
  omega

theorem strptime_canonical (mo d y hh mm : Nat) (isPM : Bool)
    (hmo1 : 1 ≤ mo) (hmo2 : mo ≤ 12)
    (hd1 : 1 ≤ d) (hd2 : d ≤ daysInMonth y mo)
    (hy1 : 1000 ≤ y) (hy2 : y ≤ 9999)
    (hh1 : 1 ≤ hh) (hh2 : hh ≤ 12) (hmm : mm ≤ 59) :
    strptimeBdYIMp
      ((monthName mo ++ ' ' :: (natStr d ++ ',' :: ' ' :: natStr y)) ++
        ' ' :: (natStr hh ++ ':' ::
          (pad2 mm ++ ' ' :: [(if isPM then 'P' else 'A'), 'M'])))
      = some ⟨y, mo, d, to24Hour hh isPM, mm⟩ := by
  simp only [List.append_assoc, List.cons_append]
  unfold strptimeBdYIMp
  rw [findMonth_canonical mo hmo1 hmo2]
  simp only []
  rw [consumeWs_space _ (natStr_head_not_spc d _)]
  simp only []
  rw [takeWhile_exact isDigitC (natStr d) ',' _ (natStr_digits d) (by decide),
    dropWhile_exact isDigitC (natStr d) ',' _ (natStr_digits d) (by decide)]
  rw [if_neg (by rw [dayTokOk_natStr d hd1
    (le_trans hd2 (daysInMonth_le y mo))]; simp)]
  simp only []
  rw [consumeWs_space _ (natStr_head_not_spc y _)]
  simp only []
  rw [takeWhile_exact isDigitC (natStr y) ' ' _ (natStr_digits y) (by decide),
    dropWhile_exact isDigitC (natStr y) ' ' _ (natStr_digits y) (by decide)]
  rw [if_neg (by rw [natStr_len_4 y hy1 hy2]; simp)]
  rw [consumeWs_space _ (natStr_head_not_spc hh _)]
  simp only []
  rw [takeWhile_exact isDigitC (natStr hh) ':' _ (natStr_digits hh) (by decide),
    dropWhile_exact isDigitC (natStr hh) ':' _ (natStr_digits hh) (by decide)]
  rw [if_neg (by rw [hourTokOk_natStr hh hh1 hh2]; simp)]
  simp only []
  rw [takeWhile_exact isDigitC (pad2 mm) ' ' _ (pad2_digits mm) (by decide),
    dropWhile_exact isDigitC (pad2 mm) ' ' _ (pad2_digits mm) (by decide)]
  rw [if_neg (by rw [minTokOk_pad2 mm hmm]; simp)]
  rw [consumeWs_space _ (by
    intro c hc
    simp at hc
    subst hc
    cases isPM <;> decide)]
  simp only []
  rw [if_pos (by
    refine ⟨?_, by decide, trivial⟩
    cases isPM <;> simp [lcv])]
  rw [if_pos ⟨by simp only [tokVal_natStr]; omega,
    by simp only [tokVal_natStr]; omega,
    by simp only [tokVal_natStr]; exact hd2⟩]
  rw [tokVal_natStr, tokVal_natStr, tokVal_natStr, tokVal_pad2 mm (by omega)]
  congr 1
  cases isPM <;> simp [to24Hour, lcv]

theorem head_canonical_not_spc (wd : List Char) (mo d y hh mm : Nat)
    (isPM lt : Bool) (hwne : wd ≠ []) (hw : ∀ c ∈ wd, isWordChar c = true) :
    ∀ c ∈ (canonicalString wd mo d y hh mm isPM lt).head?, isSpc c = false := by
  rw [canonicalString_assoc]
  exact head_append_forall _ _ _ hwne
    (fun c hc => wordChar_not_spc c (hw c hc))

theorem canonicalString_ne_nil (wd : List Char) (mo d y hh mm : Nat)
    (isPM lt : Bool) (hwne : wd ≠ []) :
    canonicalString wd mo d y hh mm isPM lt ≠ [] := by
  rw [canonicalString_assoc]
  cases wd with
  | nil => exact absurd rfl hwne
  | cons w0 wtl => simp

/-- `clean_date_string` maps every canonical-shaped string to the exact
corresponding instant. -/
theorem clean_canonical (wd : List Char) (mo d y hh mm : Nat)
    (isPM lt : Bool)
    (hwne : wd ≠ []) (hw : ∀ c ∈ wd, isWordChar c = true)
    (hmo1 : 1 ≤ mo) (hmo2 : mo ≤ 12)
    (hd1 : 1 ≤ d) (hd2 : d ≤ daysInMonth y mo)
    (hy1 : 1000 ≤ y) (hy2 : y ≤ 9999)
    (hh1 : 1 ≤ hh) (hh2 : hh ≤ 12) (hmm : mm ≤ 59) :
    clean_date_string (canonicalString wd mo d y hh mm isPM lt) =
      some ⟨y, mo, d, to24Hour hh isPM, mm⟩ := by
  unfold clean_date_string
  rw [if_neg (by
    rw [isEmpty_false_of_ne_nil
      (canonicalString_ne_nil wd mo d y hh mm isPM lt hwne)]
    simp)]
  simp only []
  unfold collapseWs
  rw [collapse_canonical wd mo d y hh mm isPM lt hmo1 hmo2 hw]
  rw [stripWs_eq_self _
    (head_canonical_not_spc wd mo d y hh mm isPM lt hwne hw)
    (getLast_canonical wd mo d y hh mm isPM lt)]
  unfold replaceDrop
  rw [replace_canonicalCore wd mo d y hh mm isPM lt hmo1 hmo2 hw]
  rw [matchPattern_canonical wd mo d y hh mm isPM hwne hw hmo1 hmo2]
  simp only []
  exact strptime_canonical mo d y hh mm isPM hmo1 hmo2 hd1 hd2 hy1 hy2
    hh1 hh2 hmm

theorem commaCount_append (a b : List Char) :
    commaCount (a ++ b) = commaCount a + commaCount b := by
  induction a with
  | nil => simp [commaCount]
  | cons c t ih =>
    rw [List.cons_append]
    show (if c = ',' then 1 else 0) + commaCount (t ++ b) =
      ((if c = ',' then 1 else 0) + commaCount t) + commaCount b
    rw [ih]
    omega

theorem commaCount_zero (a : List Char) (h : ∀ c ∈ a, c ≠ ',') :
    commaCount a = 0 := by
  induction a with
  | nil => rfl
  | cons c t ih =>
    simp only [commaCount]
    rw [if_neg (h c (by simp)), ih (fun x hx => h x (by simp [hx]))]

theorem commaCount_canonical (wd : List Char) (mo d y hh mm : Nat)
    (isPM lt : Bool) (hw : ∀ c ∈ wd, isWordChar c = true)
    (hmo1 : 1 ≤ mo) (hmo2 : mo ≤ 12) :
    commaCount (canonicalString wd mo d y hh mm isPM lt) = 2 := by
  rw [canonicalString_assoc]
  simp only [commaCount_append, commaCount]
  rw [commaCount_zero wd (fun c hc => wordChar_ne_comma c (hw c hc)),
    commaCount_zero _
      (fun c hc => wordChar_ne_comma c (monthName_word mo hmo1 hmo2 c hc)),
    commaCount_zero _ (fun c hc => digit_ne_comma c (natStr_digits d c hc)),
    commaCount_zero _ (fun c hc => digit_ne_comma c (natStr_digits y c hc)),
    commaCount_zero _ (fun c hc => digit_ne_comma c (natStr_digits hh c hc)),
    commaCount_zero _ (fun c hc => digit_ne_comma c (pad2_digits mm c hc))]
  have hsuf : commaCount (if lt then localTimePat else []) = 0 := by
    cases lt <;> decide
  rw [hsuf]
  have hapc : (if (if isPM then 'P' else 'A') = ',' then 1 else 0) = 0 := by
    cases isPM <;> decide
  simp [hapc]

/-- C4 (amended): every string of the exact canonical shape
"Weekday, Month Day, Year at H:MM AM|PM" (optionally followed by
" Local Time") is parsed by clean_date_string to the exact corresponding
instant, and the named malformed variants — a missing comma after the
weekday, or a 24-hour time with no AM/PM — yield None.  (The claim's
universal negative direction — that *every* string not of the canonical
shape yields None — is refuted by c4_counterexample: the parser also
accepts, e.g., an optional comma before "at", collapsed whitespace,
interior " Local Time" markers, and arbitrary text after the matched
prefix.) -/
theorem c4_time_normalizer_amended :
    (∀ (wd : List Char) (mo d y hh mm : Nat) (isPM lt : Bool),
      wd ≠ [] → (∀ c ∈ wd, isWordChar c = true) →
      1 ≤ mo → mo ≤ 12 → 1 ≤ d → d ≤ daysInMonth y mo →
      1000 ≤ y → y ≤ 9999 → 1 ≤ hh → hh ≤ 12 → mm ≤ 59 →
      clean_date_string (canonicalString wd mo d y hh mm isPM lt) =
        some ⟨y, mo, d, to24Hour hh isPM, mm⟩) ∧
    clean_date_string (("Saturday March 14, 2026 at 2:30 PM").toList)
      = none ∧
    clean_date_string (("Saturday, March 14, 2026 at 14:30").toList)
      = none := by
  refine ⟨?_, by decide, by decide⟩
  intro wd mo d y hh mm isPM lt hwne hw hmo1 hmo2 hd1 hd2 hy1 hy2 hh1 hh2 hmm
  exact clean_canonical wd mo d y hh mm isPM lt hwne hw hmo1 hmo2 hd1 hd2
    hy1 hy2 hh1 hh2 hmm

/-- C4 counterexample: "Saturday, March 14, 2026, at 2:30 PM" carries an
extra comma before "at", so it is not of the canonical shape (canonical
strings contain exactly two commas, this one has three), yet
clean_date_string returns the instant 2026-03-14T14:30 instead of None —
the regex tolerates an optional comma there. -/
theorem c4_counterexample :
    clean_date_string (("Saturday, March 14, 2026, at 2:30 PM").toList) =
      some ⟨2026, 3, 14, 14, 30⟩ ∧
    ¬ CanonicalShape (("Saturday, March 14, 2026, at 2:30 PM").toList) := by
  constructor
  · decide
  · rintro ⟨wd, mo, d, y, hh, mm, isPM, lt, hwne, hw, hmo1, hmo2, hd1, hd2,
      hy1, hy2, hh1, hh2, hmm2, heq⟩
    have h2 := commaCount_canonical wd mo d y hh mm isPM lt hw hmo1 hmo2
    rw [← heq] at h2
    have h3 : commaCount (("Saturday, March 14, 2026, at 2:30 PM").toList)
        = 3 := by decide
    omega

/-- Witness for C4 (amended) at the concrete canonical string
"Friday, March 14, 2026 at 2:30 PM". -/
theorem c4_time_normalizer_amended_witness :
    ((("Friday").toList ≠ [] ∧
        (∀ c ∈ (("Friday").toList), isWordChar c = true)) ∧
      (1 ≤ 3 ∧ 3 ≤ 12 ∧ 1 ≤ 14 ∧ 14 ≤ daysInMonth 2026 3 ∧
        1000 ≤ 2026 ∧ 2026 ≤ 9999 ∧ 1 ≤ 2 ∧ 2 ≤ 12 ∧ (30 : Nat) ≤ 59)) ∧
    clean_date_string
        (canonicalString (("Friday").toList) 3 14 2026 2 30 true false) =
      some ⟨2026, 3, 14, to24Hour 2 true, 30⟩ :=
  ⟨⟨⟨by decide, by decide⟩,
    by decide, by decide, by decide, by decide, by decide, by decide,
    by decide, by decide, by decide⟩,
   c4_time_normalizer_amended.1 (("Friday").toList) 3 14 2026 2 30 true false
     (by decide) (by decide) (by decide) (by decide) (by decide) (by decide)
     (by decide) (by decide) (by decide) (by decide) (by decide)⟩

end PogoCal
